import Mathlib

/-!
Verification of the reconciliation engine of the wheeler IBKR sync service.

The definitions below are a shallow embedding of the Python sources
src/ibkr_service/database.py and src/ibkr_service/sync_service.py.
Monetary values and strikes are modelled as rationals, dates as explicit
year/month/day triples, the SQLite tables as in-memory lists of rows with a
fresh-id counter (SQLite rowids are unique and increasing, which the
well-formedness predicate DB.WF captures).  The updated_at column, which no
claim mentions, is omitted.  Exception texts raised by the Python runtime are
abstracted to fixed strings; the claims only inspect the surrounding
"Error syncing position <symbol>: <exc>" wrapper built in sync_service.py.
-/

/-- A calendar date, as produced by Python's datetime.date constructor. -/
structure YMD where
  year : Int
  month : Int
  day : Int
deriving DecidableEq

/-- Leap-year test matching the proleptic Gregorian calendar used by
datetime.date. -/
def isLeap (y : Int) : Bool :=
  y % 4 = 0 && (y % 100 != 0 || y % 400 = 0)

/-- Number of days in a month, as validated by datetime.date. -/
def daysInMonth (y m : Int) : Int :=
  if m = 2 then (if isLeap y then 29 else 28)
  else if m = 4 ∨ m = 6 ∨ m = 9 ∨ m = 11 then 30
  else 31

/-- Construction of a date with the range checks datetime.date performs;
none models the ValueError raised on an out-of-range component. -/
def mkDate (y m d : Int) : Option YMD :=
  if 1 ≤ y ∧ y ≤ 9999 ∧ 1 ≤ m ∧ m ≤ 12 ∧ 1 ≤ d ∧ d ≤ daysInMonth y m then
    some ⟨y, m, d⟩
  else none

/-- Value of a single decimal digit character. -/
def digitVal (c : Char) : Option Nat :=
  if c.isDigit then some (c.toNat - '0'.toNat) else none

/-- Parse a nonempty all-digit character list as a natural number; none models
the ValueError Python's int() raises on any other content. -/
def parseDigits (cs : List Char) : Option Nat :=
  match cs with
  | [] => none
  | _ =>
      cs.foldl
        (fun acc c =>
          match acc, digitVal c with
          | some a, some d => some (a * 10 + d)
          | _, _ => none)
        (some 0)

/-- Model of Python's int() on a string: an optional sign followed by digits. -/
def parseInt (s : String) : Option Int :=
  match s.data with
  | '-' :: rest => (parseDigits rest).map (fun n => -(n : Int))
  | '+' :: rest => (parseDigits rest).map (fun n => (n : Int))
  | cs => (parseDigits cs).map (fun n => (n : Int))

/-- Parse the YYYYMMDD expiration string exactly as sync_service.py does:
date(int(s[:4]), int(s[4:6]), int(s[6:8])).  Python slicing of a short string
yields a short (possibly empty) string, mirrored by take/drop on characters. -/
def parseExpiration (s : String) : Option YMD := do
  let y ← parseInt (String.mk (s.data.take 4))
  let m ← parseInt (String.mk ((s.data.drop 4).take 2))
  let d ← parseInt (String.mk ((s.data.drop 6).take 2))
  mkDate y m d

/-- Strict chronological order on dates (ISO date strings compare
lexicographically, which coincides with this order on valid dates). -/
def ymdLt (a b : YMD) : Bool :=
  decide (a.year < b.year ∨ (a.year = b.year ∧
    (a.month < b.month ∨ (a.month = b.month ∧ a.day < b.day))))

/-- Identity key of an option position: the four columns the open-row lookup
in sync_option_position matches on. -/
structure OptKey where
  symbol : String
  type : String
  strike : Rat
  expiration : YMD
deriving DecidableEq

/-- A row of the options table (updated_at omitted; closed NULL means open). -/
structure OptionRow where
  id : Nat
  symbol : String
  type : String
  strike : Rat
  expiration : YMD
  premium : Rat
  contracts : Nat
  opened : YMD
  closed : Option YMD
deriving DecidableEq

/-- Identity key carried by an option row. -/
def OptionRow.key (r : OptionRow) : OptKey :=
  ⟨r.symbol, r.type, r.strike, r.expiration⟩

/-- A row of the long_positions table (updated_at omitted). -/
structure LongRow where
  id : Nat
  symbol : String
  opened : YMD
  shares : Int
  buyPrice : Rat
  closed : Option YMD
deriving DecidableEq

/-- The Wheeler SQLite database state touched by the sync service. -/
structure DB where
  options : List OptionRow
  longPositions : List LongRow
  symbols : List String
  nextOptionId : Nat
  nextLongId : Nat
deriving DecidableEq

/-- Well-formedness guaranteed by SQLite: rowids are pairwise distinct and
below the next id to be assigned. -/
def DB.WF (db : DB) : Prop :=
  (db.options.map OptionRow.id).Nodup ∧
  (∀ r ∈ db.options, r.id < db.nextOptionId) ∧
  (db.longPositions.map LongRow.id).Nodup ∧
  (∀ r ∈ db.longPositions, r.id < db.nextLongId)

instance : DecidablePred DB.WF := fun db => by
  unfold DB.WF; infer_instance

/-- database.py ensure_symbol_exists: INSERT OR IGNORE into symbols. -/
def ensure_symbol_exists (db : DB) (sym : String) : DB :=
  if sym ∈ db.symbols then db else { db with symbols := db.symbols ++ [sym] }

/-- The SELECT in sync_option_position: first open row with the given
identity key. -/
def firstOpenOpt (db : DB) (k : OptKey) : Option OptionRow :=
  db.options.find? (fun r => decide (r.key = k ∧ r.closed = none))

/-- The UPDATE in sync_option_position applied to one row: set contracts and
premium on the row with the matched id. -/
def setOptVals (i : Nat) (c : Nat) (m : Rat) (r : OptionRow) : OptionRow :=
  if r.id = i then { r with contracts := c, premium := m } else r

/-- database.py sync_option_position: update the open row with the same
identity key if one exists, otherwise insert a fresh open row; returns the new
database and the affected rowid. -/
def sync_option_position (today : YMD) (db : DB) (k : OptKey)
    (contracts : Nat) (premium : Rat) : DB × Nat :=
  let db := ensure_symbol_exists db k.symbol
  match firstOpenOpt db k with
  | some r =>
      ({ db with options := db.options.map (setOptVals r.id contracts premium) }, r.id)
  | none =>
      ({ db with
          options := db.options ++
            [⟨db.nextOptionId, k.symbol, k.type, k.strike, k.expiration,
              premium, contracts, today, none⟩],
          nextOptionId := db.nextOptionId + 1 },
       db.nextOptionId)

/-- The SELECT in sync_long_position: among open rows of the symbol, the one
with the greatest opened date (ORDER BY opened DESC LIMIT 1); on equal opened
dates the earliest-listed row is kept, a deterministic choice standing in for
SQLite's unspecified tie order.  pickFun keeps the later of two candidate
rows. -/
def pickFun (acc : Option LongRow) (r : LongRow) : Option LongRow :=
  match acc with
  | none => some r
  | some b => if ymdLt b.opened r.opened then some r else some b

/-- Fold realising ORDER BY opened DESC LIMIT 1 over a candidate list. -/
def pickLatestOpen (db : DB) (sym : String) : Option LongRow :=
  (db.longPositions.filter (fun r => decide (r.symbol = sym ∧ r.closed = none))).foldl
    pickFun none

/-- The UPDATE in sync_long_position applied to one row. -/
def setLongVals (i : Nat) (sh : Int) (bp : Rat) (r : LongRow) : LongRow :=
  if r.id = i then { r with shares := sh, buyPrice := bp } else r

/-- database.py sync_long_position: update the most recently opened open row
of the symbol if one exists, otherwise insert a fresh open row. -/
def sync_long_position (today : YMD) (db : DB) (sym : String)
    (shares : Int) (buyPrice : Rat) : DB × Nat :=
  let db := ensure_symbol_exists db sym
  match pickLatestOpen db sym with
  | some r =>
      ({ db with longPositions := db.longPositions.map (setLongVals r.id shares buyPrice) }, r.id)
  | none =>
      ({ db with
          longPositions := db.longPositions ++
            [⟨db.nextLongId, sym, today, shares, buyPrice, none⟩],
          nextLongId := db.nextLongId + 1 },
       db.nextLongId)

/-- The per-row effect of the closure UPDATE for options: close an open row
whose id is not in the keep list. -/
def closeOptRow (today : YMD) (keep : List Nat) (r : OptionRow) : OptionRow :=
  if r.closed = none ∧ r.id ∉ keep then { r with closed := some today } else r

/-- database.py close_missing_options: with an empty id list close every open
option row, otherwise close the open rows whose id is absent from the list;
returns the new database and the UPDATE rowcount. -/
def close_missing_options (today : YMD) (db : DB) (ids : List Nat) : DB × Nat :=
  if ids = [] then
    let newOpts := db.options.map
      (fun r => if r.closed = none then { r with closed := some today } else r)
    ({ db with options := newOpts },
     (db.options.filter (fun r => decide (r.closed = none))).length)
  else
    ({ db with options := db.options.map (closeOptRow today ids) },
     (db.options.filter (fun r => decide (r.closed = none ∧ r.id ∉ ids))).length)

/-- The per-row effect of the closure UPDATE for long positions. -/
def closeLongRow (today : YMD) (keep : List String) (r : LongRow) : LongRow :=
  if r.closed = none ∧ r.symbol ∉ keep then { r with closed := some today } else r

/-- database.py close_missing_long_positions: symmetric to the option case,
keyed by symbol instead of rowid. -/
def close_missing_long_positions (today : YMD) (db : DB) (syms : List String) : DB × Nat :=
  if syms = [] then
    let newLongs := db.longPositions.map
      (fun r => if r.closed = none then { r with closed := some today } else r)
    ({ db with longPositions := newLongs },
     (db.longPositions.filter (fun r => decide (r.closed = none))).length)
  else
    ({ db with longPositions := db.longPositions.map (closeLongRow today syms) },
     (db.longPositions.filter (fun r => decide (r.closed = none ∧ r.symbol ∉ syms))).length)

/-- Open-row counts reported by database.py get_sync_status. -/
structure DBStatus where
  openOptions : Nat
  openPositions : Nat
  totalSymbols : Nat
deriving DecidableEq

/-- database.py get_sync_status. -/
def get_sync_status (db : DB) : DBStatus :=
  ⟨(db.options.filter (fun r => r.closed.isNone)).length,
   (db.longPositions.filter (fun r => r.closed.isNone)).length,
   db.symbols.dedup.length⟩

/-- One position dictionary as assembled by ibkr_client.get_positions; the
option-specific fields are meaningless when secType is not OPT.  A missing
multiplier key models contracts for which ib_async reports none. -/
structure IBPosition where
  symbol : String
  secType : String
  position : Int
  avgCost : Rat
  strike : Rat
  expiration : String
  right : String
  multiplier : Option Int
deriving DecidableEq

/-- Outcome of the per-item derivation step of sync_service.sync_positions:
a derived option upsert, a derived share upsert, a silently ignored security
type, or a caught per-item exception carrying the logged error string. -/
inductive ItemOutcome where
  | opt (k : OptKey) (contracts : Nat) (premium : Rat)
  | stk (symbol : String) (shares : Int) (buyPrice : Rat)
  | skip
  | err (msg : String)
deriving DecidableEq

/-- The error wrapper built at the except clause of the per-item loop. -/
def itemErrorString (symbol exc : String) : String :=
  "Error syncing position " ++ symbol ++ ": " ++ exc

/-- The derivation part of one loop iteration of sync_positions: classify by
sec_type, derive type/expiration/contracts/premium for options, shares and
price for stocks; any raising sub-step (expiration parse, zero multiplier
division) becomes an err outcome, matching the per-item except clause. -/
def itemOutcome (p : IBPosition) : ItemOutcome :=
  if p.secType = "OPT" then
    let optionType := if p.right = "C" then "Call" else "Put"
    match parseExpiration p.expiration with
    | none => .err (itemErrorString p.symbol "invalid expiration date")
    | some expiration =>
      let multiplier := p.multiplier.getD 100
      if multiplier = 0 then .err (itemErrorString p.symbol "float division by zero")
      else
        .opt ⟨p.symbol, optionType, p.strike, expiration⟩
          p.position.natAbs (p.avgCost / (multiplier : Rat))
  else if p.secType = "STK" then
    .stk p.symbol p.position p.avgCost
  else .skip

/-- Mutable state of the per-item loop in sync_positions: the database
connection plus the option_ids, stock_symbols, errors and counter
accumulators. -/
structure LoopState where
  db : DB
  optionIds : List Nat
  stockSymbols : List String
  errors : List String
  optionsSynced : Nat
  positionsSynced : Nat
deriving DecidableEq

/-- One iteration of the for-loop of sync_positions. -/
def step (today : YMD) (s : LoopState) (p : IBPosition) : LoopState :=
  match itemOutcome p with
  | .opt k c m =>
      let r := sync_option_position today s.db k c m
      { s with db := r.1, optionIds := s.optionIds ++ [r.2],
               optionsSynced := s.optionsSynced + 1 }
  | .stk sym sh bp =>
      let r := sync_long_position today s.db sym sh bp
      { s with db := r.1, stockSymbols := s.stockSymbols ++ [sym],
               positionsSynced := s.positionsSynced + 1 }
  | .skip => s
  | .err m => { s with errors := s.errors ++ [m] }

/-- The whole per-item loop, started from the fresh accumulators of
sync_positions. -/
def runLoop (today : YMD) (db : DB) (ps : List IBPosition) : LoopState :=
  ps.foldl (step today) ⟨db, [], [], [], 0, 0⟩

/-- Effect of one loop iteration on the database alone. -/
def stepDB (today : YMD) (db : DB) (p : IBPosition) : DB :=
  match itemOutcome p with
  | .opt k c m => (sync_option_position today db k c m).1
  | .stk sym sh bp => (sync_long_position today db sym sh bp).1
  | _ => db

/-- The option_ids accumulated by the loop, as a function of the database
the loop starts from. -/
def loopIds (today : YMD) : DB → List IBPosition → List Nat
  | _, [] => []
  | db, p :: ps =>
      (match itemOutcome p with
       | .opt k c m => [(sync_option_position today db k c m).2]
       | _ => []) ++ loopIds today (stepDB today db p) ps

/-- The error strings the loop accumulates, in item order. -/
def errsOf (ps : List IBPosition) : List String :=
  ps.filterMap (fun p =>
    match itemOutcome p with
    | .err m => some m
    | _ => none)

/-- The stock_symbols list the loop accumulates. -/
def stkSyms (ps : List IBPosition) : List String :=
  ps.filterMap (fun p =>
    match itemOutcome p with
    | .stk sym _ _ => some sym
    | _ => none)

/-- The option identity keys derivable from a snapshot: one key per option
item whose derivation succeeds. -/
def okKeys (ps : List IBPosition) : List OptKey :=
  ps.filterMap (fun p =>
    match itemOutcome p with
    | .opt k _ _ => some k
    | _ => none)

/-- Identity keys of the open option rows of a database state. -/
def openOptKeys (db : DB) : List OptKey :=
  (db.options.filter (fun r => r.closed.isNone)).map OptionRow.key

/-- Row ids of the open option rows of a database state. -/
def openOptIds (db : DB) : List Nat :=
  (db.options.filter (fun r => r.closed.isNone)).map OptionRow.id

/-- Symbols of the open share rows of a database state. -/
def openShareSymbols (db : DB) : List String :=
  (db.longPositions.filter (fun r => r.closed.isNone)).map LongRow.symbol

/-- Row ids of the open share rows of a database state. -/
def openLongIds (db : DB) : List Nat :=
  (db.longPositions.filter (fun r => r.closed.isNone)).map LongRow.id

/-- The result dictionary built by sync_service.sync_positions. -/
structure SyncResult where
  success : Bool
  syncedAt : Option String
  optionsSynced : Nat
  positionsSynced : Nat
  optionsClosed : Nat
  positionsClosed : Nat
  errors : List String
deriving DecidableEq

/-- The result dictionary as initialised at the top of sync_positions. -/
def emptyResult : SyncResult := ⟨false, none, 0, 0, 0, 0, []⟩

/-- External collaborators of one sync_positions call: the broker session
state, the outcome of a connection attempt, the fetched snapshot or the
message of the exception the fetch raised, and injected store faults for the
two closure statements (none means the statement succeeds; a fault raises
before mutating the table). -/
structure SyncEnv where
  isConnected : Bool
  connectOk : Bool
  fetch : Except String (List IBPosition)
  optCloseFault : Option String
  longCloseFault : Option String

/-- Return value and database effect of one sync_positions call. -/
structure SyncOutcome where
  result : SyncResult
  db : DB
deriving DecidableEq

/-- sync_service.SyncService.sync_positions: connect if needed (early return
on failure), fetch, run the per-item loop, run the two closure statements,
then mark success; any exception escaping the fetch or the closure statements
is caught by the outer handler as a single "Sync failed" error with
success left false. -/
def sync_positions (env : SyncEnv) (db : DB) (today : YMD) (now : String) : SyncOutcome :=
  if env.isConnected = false ∧ env.connectOk = false then
    { result := { emptyResult with errors := ["Failed to connect to IBKR"] }, db := db }
  else
    match env.fetch with
    | .error msg =>
        { result := { emptyResult with errors := ["Sync failed: " ++ msg] }, db := db }
    | .ok positions =>
        let s := runLoop today db positions
        match env.optCloseFault with
        | some m =>
            { result := { success := false, syncedAt := none,
                          optionsSynced := s.optionsSynced,
                          positionsSynced := s.positionsSynced,
                          optionsClosed := 0, positionsClosed := 0,
                          errors := s.errors ++ ["Sync failed: " ++ m] },
              db := s.db }
        | none =>
            let co := close_missing_options today s.db s.optionIds
            match env.longCloseFault with
            | some m =>
                { result := { success := false, syncedAt := none,
                              optionsSynced := s.optionsSynced,
                              positionsSynced := s.positionsSynced,
                              optionsClosed := co.2, positionsClosed := 0,
                              errors := s.errors ++ ["Sync failed: " ++ m] },
                  db := co.1 }
            | none =>
                let cl := close_missing_long_positions today co.1 s.stockSymbols
                { result := { success := true, syncedAt := some now,
                              optionsSynced := s.optionsSynced,
                              positionsSynced := s.positionsSynced,
                              optionsClosed := co.2, positionsClosed := cl.2,
                              errors := s.errors },
                  db := cl.1 }

/-- The last_sync / last_sync_result fields of the SyncService instance. -/
structure SvcState where
  lastSync : Option String
  lastSyncResult : Option SyncResult
deriving DecidableEq

/-- sync_positions at the service level: the early return on connection
failure skips the assignment of last_sync and last_sync_result; every other
path replaces both with the new run. -/
def service_sync (svc : SvcState) (env : SyncEnv) (db : DB) (today : YMD)
    (now : String) : SvcState × SyncOutcome :=
  let out := sync_positions env db today now
  if env.isConnected = false ∧ env.connectOk = false then (svc, out)
  else ({ lastSync := some now, lastSyncResult := some out.result }, out)

/-- The dictionary returned by SyncService.get_status. -/
structure StatusView where
  connected : Bool
  lastSync : Option String
  lastSyncResult : Option SyncResult
  database : DBStatus
deriving DecidableEq

/-- sync_service.SyncService.get_status. -/
def get_status (svc : SvcState) (connected : Bool) (db : DB) : StatusView :=
  ⟨connected, svc.lastSync, svc.lastSyncResult, get_sync_status db⟩

/-- The database effect of one successful reconciliation pass (loop followed
by the two closure statements), used to state multi-pass properties. -/
def passDB (today : YMD) (ps : List IBPosition) (db : DB) : DB :=
  let s := runLoop today db ps
  (close_missing_long_positions today
    (close_missing_options today s.db s.optionIds).1 s.stockSymbols).1

/-- A sequence of successful reconciliation passes. -/
def runMany (today : YMD) (snaps : List (List IBPosition)) (db : DB) : DB :=
  snaps.foldl (fun d ps => passDB today ps d) db

/-- No two open option rows share an identity key. -/
def UniqOpenOpt (db : DB) : Prop :=
  (openOptKeys db).Nodup

/-- Fields of a row preserved by every in-place UPDATE: id, identity key,
opened date and lifecycle marker. -/
def OptSkel (r r' : OptionRow) : Prop :=
  r'.id = r.id ∧ r'.key = r.key ∧ r'.opened = r.opened ∧ r'.closed = r.closed

/-- Fields of a share row preserved by every in-place UPDATE. -/
def LongSkel (r r' : LongRow) : Prop :=
  r'.id = r.id ∧ r'.symbol = r.symbol ∧ r'.opened = r.opened ∧ r'.closed = r.closed

/-- Row id returned by the open-row lookup. -/
def firstOpenId (db : DB) (k : OptKey) : Option Nat :=
  (firstOpenOpt db k).map OptionRow.id

/-- Every id in the accumulator denotes an open row and is the id the lookup
of that row's key returns. -/
def IdsCanon (db : DB) (ids : List Nat) : Prop :=
  ∀ i ∈ ids, ∀ r ∈ db.options, r.id = i →
    r.closed = none ∧ firstOpenId db r.key = some i

/-- The environment of a clean pass: session live, fetch succeeds, store
healthy. -/
def okEnv (ps : List IBPosition) : SyncEnv := ⟨true, true, .ok ps, none, none⟩

/-! ### Concrete fixtures used by the witnesses -/

/-- A sample run date. -/
def t0 : YMD := ⟨2024, 5, 1⟩

/-- The AAPL put of the spec's concrete scenario: short 3 contracts at cost
basis 375 with multiplier 100. -/
def posAAPL : IBPosition := ⟨"AAPL", "OPT", -3, 375, 150, "20240621", "P", some 100⟩

/-- A stock item. -/
def posMSFT : IBPosition := ⟨"MSFT", "STK", 100, 310, 0, "", "", none⟩

/-- An option item whose expiration string cannot be parsed. -/
def posBAD : IBPosition := ⟨"BAD", "OPT", 1, 100, 50, "2024-6-1", "C", some 100⟩

/-- The stored open AAPL put of the spec's concrete scenario. -/
def rowAAPL : OptionRow := ⟨1, "AAPL", "Put", 150, ⟨2024, 6, 21⟩, 7/2, 2, ⟨2024, 1, 1⟩, none⟩

/-- A stored open MSFT share row. -/
def rowMSFT : LongRow := ⟨1, "MSFT", ⟨2024, 1, 2⟩, 100, 310, none⟩

/-- A store state holding the two rows above. -/
def dbW : DB := ⟨[rowAAPL], [rowMSFT], ["AAPL", "MSFT"], 2, 2⟩

/-- C5 counterexample fixture: an option item whose right code starts with
the letter C without being the single letter C. -/
def posCALL : IBPosition := ⟨"XYZ", "OPT", 1, 100, 50, "20240621", "CALL", some 100⟩

/-- The stored type an outcome would write, when it is an option upsert. -/
def outcomeType : ItemOutcome → Option String
  | .opt k _ _ => some k.type
  | _ => none

/-- Whether an outcome is a caught per-item failure. -/
def isErrOutcome : ItemOutcome → Bool
  | .err _ => true
  | _ => false

instance : DecidablePred UniqOpenOpt := fun db => by
  unfold UniqOpenOpt openOptKeys
  infer_instance

/-- The contracts and premium written by the last option item of the
snapshot carrying the given identity key, if any. -/
def lastOpt (ps : List IBPosition) (k : OptKey) : Option (Nat × Rat) :=
  (ps.filterMap (fun p =>
    match itemOutcome p with
    | .opt k' c m => if k' = k then some (c, m) else none
    | _ => none)).getLast?

/-- The shares and buy price written by the last stock item of the snapshot
carrying the given symbol, if any. -/
def lastStk (ps : List IBPosition) (sym : String) : Option (Int × Rat) :=
  (ps.filterMap (fun p =>
    match itemOutcome p with
    | .stk sym' sh bp => if sym' = sym then some (sh, bp) else none
    | _ => none)).getLast?

/-- Row id returned by the most-recently-opened open-row lookup of
sync_long_position. -/
def pickId (db : DB) (sym : String) : Option Nat :=
  (pickLatestOpen db sym).map LongRow.id

/-! ### Basic facts about the store primitives -/

theorem optSkel_refl (r : OptionRow) : OptSkel r r := ⟨rfl, rfl, rfl, rfl⟩

theorem optSkel_trans {a b c : OptionRow} (h₁ : OptSkel a b) (h₂ : OptSkel b c) :
    OptSkel a c :=
  ⟨h₂.1.trans h₁.1, h₂.2.1.trans h₁.2.1, h₂.2.2.1.trans h₁.2.2.1, h₂.2.2.2.trans h₁.2.2.2⟩

theorem longSkel_refl (r : LongRow) : LongSkel r r := ⟨rfl, rfl, rfl, rfl⟩

theorem longSkel_trans {a b c : LongRow} (h₁ : LongSkel a b) (h₂ : LongSkel b c) :
    LongSkel a c :=
  ⟨h₂.1.trans h₁.1, h₂.2.1.trans h₁.2.1, h₂.2.2.1.trans h₁.2.2.1, h₂.2.2.2.trans h₁.2.2.2⟩

@[simp] theorem ensure_options (db : DB) (s : String) :
    (ensure_symbol_exists db s).options = db.options := by
  unfold ensure_symbol_exists; split <;> rfl

@[simp] theorem ensure_longPositions (db : DB) (s : String) :
    (ensure_symbol_exists db s).longPositions = db.longPositions := by
  unfold ensure_symbol_exists; split <;> rfl

@[simp] theorem ensure_nextOptionId (db : DB) (s : String) :
    (ensure_symbol_exists db s).nextOptionId = db.nextOptionId := by
  unfold ensure_symbol_exists; split <;> rfl

@[simp] theorem ensure_nextLongId (db : DB) (s : String) :
    (ensure_symbol_exists db s).nextLongId = db.nextLongId := by
  unfold ensure_symbol_exists; split <;> rfl

@[simp] theorem setOptVals_id (i : Nat) (c : Nat) (m : Rat) (r : OptionRow) :
    (setOptVals i c m r).id = r.id := by
  unfold setOptVals; split <;> rfl

@[simp] theorem setOptVals_key (i : Nat) (c : Nat) (m : Rat) (r : OptionRow) :
    (setOptVals i c m r).key = r.key := by
  unfold setOptVals; split <;> rfl

@[simp] theorem setOptVals_closed (i : Nat) (c : Nat) (m : Rat) (r : OptionRow) :
    (setOptVals i c m r).closed = r.closed := by
  unfold setOptVals; split <;> rfl

@[simp] theorem setOptVals_opened (i : Nat) (c : Nat) (m : Rat) (r : OptionRow) :
    (setOptVals i c m r).opened = r.opened := by
  unfold setOptVals; split <;> rfl

theorem setOptVals_skel (i : Nat) (c : Nat) (m : Rat) (r : OptionRow) :
    OptSkel r (setOptVals i c m r) := by
  refine ⟨?_, ?_, ?_, ?_⟩ <;> simp

@[simp] theorem setLongVals_id (i : Nat) (sh : Int) (bp : Rat) (r : LongRow) :
    (setLongVals i sh bp r).id = r.id := by
  unfold setLongVals; split <;> rfl

@[simp] theorem setLongVals_symbol (i : Nat) (sh : Int) (bp : Rat) (r : LongRow) :
    (setLongVals i sh bp r).symbol = r.symbol := by
  unfold setLongVals; split <;> rfl

@[simp] theorem setLongVals_closed (i : Nat) (sh : Int) (bp : Rat) (r : LongRow) :
    (setLongVals i sh bp r).closed = r.closed := by
  unfold setLongVals; split <;> rfl

@[simp] theorem setLongVals_opened (i : Nat) (sh : Int) (bp : Rat) (r : LongRow) :
    (setLongVals i sh bp r).opened = r.opened := by
  unfold setLongVals; split <;> rfl

theorem setLongVals_skel (i : Nat) (sh : Int) (bp : Rat) (r : LongRow) :
    LongSkel r (setLongVals i sh bp r) := by
  refine ⟨?_, ?_, ?_, ?_⟩ <;> simp

@[simp] theorem closeOptRow_id (today : YMD) (keep : List Nat) (r : OptionRow) :
    (closeOptRow today keep r).id = r.id := by
  unfold closeOptRow; split <;> rfl

@[simp] theorem closeOptRow_key (today : YMD) (keep : List Nat) (r : OptionRow) :
    (closeOptRow today keep r).key = r.key := by
  unfold closeOptRow; split <;> rfl

@[simp] theorem closeLongRow_id (today : YMD) (keep : List String) (r : LongRow) :
    (closeLongRow today keep r).id = r.id := by
  unfold closeLongRow; split <;> rfl

@[simp] theorem closeLongRow_symbol (today : YMD) (keep : List String) (r : LongRow) :
    (closeLongRow today keep r).symbol = r.symbol := by
  unfold closeLongRow; split <;> rfl

theorem closeOptRow_closed_of_kept (today : YMD) (keep : List Nat) (r : OptionRow)
    (h : r.id ∈ keep) : closeOptRow today keep r = r := by
  unfold closeOptRow; split
  · next hc => exact absurd h hc.2
  · rfl

theorem closeOptRow_closed_of_dropped (today : YMD) (keep : List Nat) (r : OptionRow)
    (ho : r.closed = none) (h : r.id ∉ keep) :
    closeOptRow today keep r = { r with closed := some today } := by
  unfold closeOptRow; split
  · rfl
  · next hc => exact absurd ⟨ho, h⟩ hc

/-- The two branches of close_missing_options compute the same table: with an
empty keep list the extra id test is vacuous. -/
theorem close_missing_options_eq (today : YMD) (db : DB) (ids : List Nat) :
    close_missing_options today db ids =
      ({ db with options := db.options.map (closeOptRow today ids) },
       (db.options.filter (fun r => decide (r.closed = none ∧ r.id ∉ ids))).length) := by
  unfold close_missing_options
  split
  · next h =>
    subst h
    have hmap : ∀ r ∈ db.options,
        (if r.closed = none then { r with closed := some today } else r) =
          closeOptRow today [] r := by
      intro r _
      unfold closeOptRow
      by_cases hc : r.closed = none <;> simp [hc]
    have hfil : ∀ r ∈ db.options,
        decide (r.closed = none) = decide (r.closed = none ∧ r.id ∉ ([] : List Nat)) := by
      intro r _; simp [decide_eq_decide]
    rw [List.map_congr_left hmap, List.filter_congr hfil]
  · rfl

/-- The two branches of close_missing_long_positions compute the same table. -/
theorem close_missing_long_positions_eq (today : YMD) (db : DB) (syms : List String) :
    close_missing_long_positions today db syms =
      ({ db with longPositions := db.longPositions.map (closeLongRow today syms) },
       (db.longPositions.filter
         (fun r => decide (r.closed = none ∧ r.symbol ∉ syms))).length) := by
  unfold close_missing_long_positions
  split
  · next h =>
    subst h
    have hmap : ∀ r ∈ db.longPositions,
        (if r.closed = none then { r with closed := some today } else r) =
          closeLongRow today [] r := by
      intro r _
      unfold closeLongRow
      by_cases hc : r.closed = none <;> simp [hc]
    have hfil : ∀ r ∈ db.longPositions,
        decide (r.closed = none) = decide (r.closed = none ∧ r.symbol ∉ ([] : List String)) := by
      intro r _; simp [decide_eq_decide]
    rw [List.map_congr_left hmap, List.filter_congr hfil]
  · rfl

/-! ### Lookup lemmas -/

theorem firstOpenOpt_ensure (db : DB) (s : String) (k : OptKey) :
    firstOpenOpt (ensure_symbol_exists db s) k = firstOpenOpt db k := by
  unfold firstOpenOpt; rw [ensure_options]

theorem firstOpenOpt_some {db : DB} {k : OptKey} {r : OptionRow}
    (h : firstOpenOpt db k = some r) :
    r ∈ db.options ∧ r.key = k ∧ r.closed = none := by
  refine ⟨List.mem_of_find?_eq_some h, ?_⟩
  have := List.find?_some h
  simpa using this

theorem firstOpenOpt_none {db : DB} {k : OptKey} :
    firstOpenOpt db k = none ↔ ∀ r ∈ db.options, ¬(r.key = k ∧ r.closed = none) := by
  unfold firstOpenOpt
  rw [List.find?_eq_none]
  constructor
  · intro h r hr hk
    have := h r hr
    simp at this
    exact this hk.1 hk.2
  · intro h r hr
    simp
    intro hk hc
    exact h r hr ⟨hk, hc⟩

theorem pickLatestOpen_ensure (db : DB) (s sym : String) :
    pickLatestOpen (ensure_symbol_exists db s) sym = pickLatestOpen db sym := by
  unfold pickLatestOpen; rw [ensure_longPositions]

theorem pick_fold_mem {l : List LongRow} :
    ∀ {acc r : LongRow}, l.foldl pickFun (some acc) = some r → r = acc ∨ r ∈ l := by
  induction l with
  | nil => intro acc r h; simp at h; exact Or.inl h.symm
  | cons x xs ih =>
    intro acc r h
    simp only [List.foldl_cons, pickFun] at h
    by_cases hlt : ymdLt acc.opened x.opened
    · rw [if_pos hlt] at h
      rcases ih h with h1 | h2
      · exact Or.inr (by simp [h1])
      · exact Or.inr (List.mem_cons_of_mem _ h2)
    · rw [if_neg hlt] at h
      rcases ih h with h1 | h2
      · exact Or.inl h1
      · exact Or.inr (List.mem_cons_of_mem _ h2)

theorem pick_fold_none {l : List LongRow} {acc : LongRow} :
    l.foldl pickFun (some acc) ≠ none := by
  induction l generalizing acc with
  | nil => simp
  | cons x xs ih =>
    simp only [List.foldl_cons, pickFun]
    by_cases hlt : ymdLt acc.opened x.opened
    · rw [if_pos hlt]; exact ih
    · rw [if_neg hlt]; exact ih

theorem pickLatestOpen_some {db : DB} {sym : String} {r : LongRow}
    (h : pickLatestOpen db sym = some r) :
    r ∈ db.longPositions ∧ r.symbol = sym ∧ r.closed = none := by
  unfold pickLatestOpen at h
  have hrl : r ∈ db.longPositions.filter
      (fun r => decide (r.symbol = sym ∧ r.closed = none)) := by
    cases hfil : db.longPositions.filter
        (fun r => decide (r.symbol = sym ∧ r.closed = none)) with
    | nil => rw [hfil] at h; exact absurd h (by simp)
    | cons x xs =>
      rw [hfil] at h
      simp only [List.foldl_cons, pickFun] at h
      rcases pick_fold_mem h with h1 | h2
      · simp [h1]
      · exact List.mem_cons_of_mem _ h2
  have := List.of_mem_filter hrl
  simp at this
  exact ⟨List.mem_of_mem_filter hrl, this.1, this.2⟩

theorem pickLatestOpen_none {db : DB} {sym : String} :
    pickLatestOpen db sym = none ↔
      ∀ r ∈ db.longPositions, ¬(r.symbol = sym ∧ r.closed = none) := by
  unfold pickLatestOpen
  constructor
  · intro h r hr hprop
    have hmem : r ∈ db.longPositions.filter
        (fun r => decide (r.symbol = sym ∧ r.closed = none)) :=
      List.mem_filter_of_mem hr (by simpa using hprop)
    cases hfil : db.longPositions.filter
        (fun r => decide (r.symbol = sym ∧ r.closed = none)) with
    | nil => rw [hfil] at hmem; simp at hmem
    | cons x xs =>
      rw [hfil] at h
      simp only [List.foldl_cons, pickFun] at h
      exact absurd h pick_fold_none
  · intro h
    have : db.longPositions.filter
        (fun r => decide (r.symbol = sym ∧ r.closed = none)) = [] := by
      rw [List.filter_eq_nil_iff]
      intro r hr
      simpa using h r hr
    rw [this]
    rfl

/-! ### Case analyses of the two upsert operations -/

theorem sync_opt_of_found {db : DB} {k : OptKey} {r : OptionRow} (today : YMD)
    (c : Nat) (m : Rat) (h : firstOpenOpt db k = some r) :
    sync_option_position today db k c m =
      ({ ensure_symbol_exists db k.symbol with
          options := db.options.map (setOptVals r.id c m) }, r.id) := by
  unfold sync_option_position
  simp only [firstOpenOpt_ensure, h, ensure_options]

theorem sync_opt_of_absent {db : DB} {k : OptKey} (today : YMD)
    (c : Nat) (m : Rat) (h : firstOpenOpt db k = none) :
    sync_option_position today db k c m =
      ({ ensure_symbol_exists db k.symbol with
          options := db.options ++
            [⟨db.nextOptionId, k.symbol, k.type, k.strike, k.expiration, m, c, today, none⟩],
          nextOptionId := db.nextOptionId + 1 }, db.nextOptionId) := by
  unfold sync_option_position
  simp only [firstOpenOpt_ensure, h, ensure_options, ensure_nextOptionId]

theorem sync_long_of_found {db : DB} {sym : String} {r : LongRow} (today : YMD)
    (sh : Int) (bp : Rat) (h : pickLatestOpen db sym = some r) :
    sync_long_position today db sym sh bp =
      ({ ensure_symbol_exists db sym with
          longPositions := db.longPositions.map (setLongVals r.id sh bp) }, r.id) := by
  unfold sync_long_position
  simp only [pickLatestOpen_ensure, h, ensure_longPositions]

theorem sync_long_of_absent {db : DB} {sym : String} (today : YMD)
    (sh : Int) (bp : Rat) (h : pickLatestOpen db sym = none) :
    sync_long_position today db sym sh bp =
      ({ ensure_symbol_exists db sym with
          longPositions := db.longPositions ++
            [⟨db.nextLongId, sym, today, sh, bp, none⟩],
          nextLongId := db.nextLongId + 1 }, db.nextLongId) := by
  unfold sync_long_position
  simp only [pickLatestOpen_ensure, h, ensure_longPositions, ensure_nextLongId]

/-! ### Frame facts: which tables each operation touches -/

theorem sync_opt_longPositions (today : YMD) (db : DB) (k : OptKey) (c : Nat) (m : Rat) :
    (sync_option_position today db k c m).1.longPositions = db.longPositions := by
  unfold sync_option_position
  cases h : firstOpenOpt (ensure_symbol_exists db k.symbol) k <;> simp [h]

theorem sync_opt_nextLongId (today : YMD) (db : DB) (k : OptKey) (c : Nat) (m : Rat) :
    (sync_option_position today db k c m).1.nextLongId = db.nextLongId := by
  unfold sync_option_position
  cases h : firstOpenOpt (ensure_symbol_exists db k.symbol) k <;> simp [h]

theorem sync_long_options (today : YMD) (db : DB) (sym : String) (sh : Int) (bp : Rat) :
    (sync_long_position today db sym sh bp).1.options = db.options := by
  unfold sync_long_position
  cases h : pickLatestOpen (ensure_symbol_exists db sym) sym <;> simp [h]

theorem sync_long_nextOptionId (today : YMD) (db : DB) (sym : String) (sh : Int) (bp : Rat) :
    (sync_long_position today db sym sh bp).1.nextOptionId = db.nextOptionId := by
  unfold sync_long_position
  cases h : pickLatestOpen (ensure_symbol_exists db sym) sym <;> simp [h]

/-! ### Decomposition of the per-item loop into its accumulators -/

theorem step_db (today : YMD) (s : LoopState) (p : IBPosition) :
    (step today s p).db = stepDB today s.db p := by
  unfold step stepDB
  cases h : itemOutcome p <;> rfl

theorem errsOf_cons (p : IBPosition) (ps : List IBPosition) :
    errsOf (p :: ps) =
      (match itemOutcome p with | .err m => [m] | _ => []) ++ errsOf ps := by
  unfold errsOf
  cases h : itemOutcome p <;> simp [List.filterMap_cons, h]

theorem stkSyms_cons (p : IBPosition) (ps : List IBPosition) :
    stkSyms (p :: ps) =
      (match itemOutcome p with | .stk sym _ _ => [sym] | _ => []) ++ stkSyms ps := by
  unfold stkSyms
  cases h : itemOutcome p <;> simp [List.filterMap_cons, h]

theorem okKeys_cons (p : IBPosition) (ps : List IBPosition) :
    okKeys (p :: ps) =
      (match itemOutcome p with | .opt k _ _ => [k] | _ => []) ++ okKeys ps := by
  unfold okKeys
  cases h : itemOutcome p <;> simp [List.filterMap_cons, h]

theorem loop_decomp (today : YMD) (ps : List IBPosition) :
    ∀ s : LoopState,
      List.foldl (step today) s ps =
        ⟨List.foldl (stepDB today) s.db ps,
         s.optionIds ++ loopIds today s.db ps,
         s.stockSymbols ++ stkSyms ps,
         s.errors ++ errsOf ps,
         s.optionsSynced + (okKeys ps).length,
         s.positionsSynced + (stkSyms ps).length⟩ := by
  induction ps with
  | nil =>
    intro s
    simp [loopIds, errsOf, stkSyms, okKeys]
  | cons p ps ih =>
    intro s
    rw [List.foldl_cons, List.foldl_cons, ih (step today s p)]
    rw [errsOf_cons, stkSyms_cons, okKeys_cons]
    have hdb := step_db today s p
    cases h : itemOutcome p <;>
      simp [step, h, loopIds, stepDB, List.append_assoc] <;>
      try omega

theorem stepDB_opt {p : IBPosition} {k : OptKey} {c : Nat} {m : Rat}
    (today : YMD) (db : DB) (h : itemOutcome p = .opt k c m) :
    stepDB today db p = (sync_option_position today db k c m).1 := by
  unfold stepDB; rw [h]

theorem stepDB_stk {p : IBPosition} {sym : String} {sh : Int} {bp : Rat}
    (today : YMD) (db : DB) (h : itemOutcome p = .stk sym sh bp) :
    stepDB today db p = (sync_long_position today db sym sh bp).1 := by
  unfold stepDB; rw [h]

theorem stepDB_skip {p : IBPosition} (today : YMD) (db : DB)
    (h : itemOutcome p = .skip) : stepDB today db p = db := by
  unfold stepDB; rw [h]

theorem stepDB_err {p : IBPosition} {msg : String} (today : YMD) (db : DB)
    (h : itemOutcome p = .err msg) : stepDB today db p = db := by
  unfold stepDB; rw [h]

/-! ### Persistence: rows survive the loop with id, key, opened, closed intact -/

theorem stepDB_opt_persist (today : YMD) (db : DB) (p : IBPosition) :
    ∀ r ∈ db.options, ∃ r' ∈ (stepDB today db p).options, OptSkel r r' := by
  intro r hr
  cases h : itemOutcome p with
  | opt k c m =>
    rw [stepDB_opt today db h]
    cases hf : firstOpenOpt db k with
    | some r0 =>
      rw [sync_opt_of_found today c m hf]
      exact ⟨setOptVals r0.id c m r, List.mem_map_of_mem _ hr, setOptVals_skel _ _ _ _⟩
    | none =>
      rw [sync_opt_of_absent today c m hf]
      exact ⟨r, List.mem_append_left _ hr, optSkel_refl r⟩
  | stk sym sh bp =>
    rw [stepDB_stk today db h, sync_long_options]
    exact ⟨r, hr, optSkel_refl r⟩
  | skip => rw [stepDB_skip today db h]; exact ⟨r, hr, optSkel_refl r⟩
  | err msg => rw [stepDB_err today db h]; exact ⟨r, hr, optSkel_refl r⟩

theorem loopDB_opt_persist (today : YMD) (ps : List IBPosition) :
    ∀ db : DB, ∀ r ∈ db.options,
      ∃ r' ∈ (List.foldl (stepDB today) db ps).options, OptSkel r r' := by
  induction ps with
  | nil => intro db r hr; exact ⟨r, hr, optSkel_refl r⟩
  | cons p ps ih =>
    intro db r hr
    obtain ⟨r1, hr1, hskel1⟩ := stepDB_opt_persist today db p r hr
    obtain ⟨r2, hr2, hskel2⟩ := ih (stepDB today db p) r1 hr1
    exact ⟨r2, hr2, optSkel_trans hskel1 hskel2⟩

theorem stepDB_long_persist (today : YMD) (db : DB) (p : IBPosition) :
    ∀ r ∈ db.longPositions, ∃ r' ∈ (stepDB today db p).longPositions, LongSkel r r' := by
  intro r hr
  cases h : itemOutcome p with
  | opt k c m =>
    rw [stepDB_opt today db h, sync_opt_longPositions]
    exact ⟨r, hr, longSkel_refl r⟩
  | stk sym sh bp =>
    rw [stepDB_stk today db h]
    cases hf : pickLatestOpen db sym with
    | some r0 =>
      rw [sync_long_of_found today sh bp hf]
      exact ⟨setLongVals r0.id sh bp r, List.mem_map_of_mem _ hr, setLongVals_skel _ _ _ _⟩
    | none =>
      rw [sync_long_of_absent today sh bp hf]
      exact ⟨r, List.mem_append_left _ hr, longSkel_refl r⟩
  | skip => rw [stepDB_skip today db h]; exact ⟨r, hr, longSkel_refl r⟩
  | err msg => rw [stepDB_err today db h]; exact ⟨r, hr, longSkel_refl r⟩

theorem loopDB_long_persist (today : YMD) (ps : List IBPosition) :
    ∀ db : DB, ∀ r ∈ db.longPositions,
      ∃ r' ∈ (List.foldl (stepDB today) db ps).longPositions, LongSkel r r' := by
  induction ps with
  | nil => intro db r hr; exact ⟨r, hr, longSkel_refl r⟩
  | cons p ps ih =>
    intro db r hr
    obtain ⟨r1, hr1, hskel1⟩ := stepDB_long_persist today db p r hr
    obtain ⟨r2, hr2, hskel2⟩ := ih (stepDB today db p) r1 hr1
    exact ⟨r2, hr2, longSkel_trans hskel1 hskel2⟩

/-! ### Well-formedness is preserved and fresh ids only grow -/

theorem map_id_setOptVals (l : List OptionRow) (i : Nat) (c : Nat) (m : Rat) :
    (l.map (setOptVals i c m)).map OptionRow.id = l.map OptionRow.id := by
  rw [List.map_map]
  exact List.map_congr_left (fun r _ => setOptVals_id i c m r)

theorem map_id_setLongVals (l : List LongRow) (i : Nat) (sh : Int) (bp : Rat) :
    (l.map (setLongVals i sh bp)).map LongRow.id = l.map LongRow.id := by
  rw [List.map_map]
  exact List.map_congr_left (fun r _ => setLongVals_id i sh bp r)

theorem stepDB_WF (today : YMD) (db : DB) (p : IBPosition) (hwf : DB.WF db) :
    DB.WF (stepDB today db p) ∧
      db.nextOptionId ≤ (stepDB today db p).nextOptionId ∧
      db.nextLongId ≤ (stepDB today db p).nextLongId := by
  obtain ⟨hnd, hbd, hndL, hbdL⟩ := hwf
  cases h : itemOutcome p with
  | opt k c m =>
    rw [stepDB_opt today db h]
    cases hf : firstOpenOpt db k with
    | some r0 =>
      rw [sync_opt_of_found today c m hf]
      dsimp only
      refine ⟨⟨?_, ?_, ?_, ?_⟩, ?_, ?_⟩
      · rw [map_id_setOptVals]; exact hnd
      · intro r hr
        obtain ⟨x, hx, rfl⟩ := List.mem_map.mp hr
        simpa using hbd x hx
      · rw [ensure_longPositions]; exact hndL
      · rw [ensure_longPositions, ensure_nextLongId]; exact hbdL
      · rw [ensure_nextOptionId]
      · rw [ensure_nextLongId]
    | none =>
      rw [sync_opt_of_absent today c m hf]
      dsimp only
      refine ⟨⟨?_, ?_, ?_, ?_⟩, ?_, ?_⟩
      · rw [List.map_append, List.nodup_append]
        refine ⟨hnd, List.nodup_singleton _, ?_⟩
        intro a ha hb
        simp only [List.map_cons, List.map_nil, List.mem_singleton] at hb
        obtain ⟨x, hx, hxa⟩ := List.mem_map.mp ha
        subst hb
        rw [← hxa] at hbd
        exact absurd (hbd x hx) (by rw [hxa]; exact lt_irrefl _)
      · intro r hr
        rcases List.mem_append.mp hr with h1 | h1
        · exact Nat.lt_succ_of_lt (hbd r h1)
        · simp only [List.mem_singleton] at h1
          subst h1
          exact Nat.lt_succ_self _
      · rw [ensure_longPositions]; exact hndL
      · rw [ensure_longPositions, ensure_nextLongId]; exact hbdL
      · exact Nat.le_succ _
      · rw [ensure_nextLongId]
  | stk sym sh bp =>
    rw [stepDB_stk today db h]
    cases hf : pickLatestOpen db sym with
    | some r0 =>
      rw [sync_long_of_found today sh bp hf]
      dsimp only
      refine ⟨⟨?_, ?_, ?_, ?_⟩, ?_, ?_⟩
      · rw [ensure_options]; exact hnd
      · rw [ensure_options, ensure_nextOptionId]; exact hbd
      · rw [map_id_setLongVals]; exact hndL
      · intro r hr
        obtain ⟨x, hx, rfl⟩ := List.mem_map.mp hr
        simpa using hbdL x hx
      · rw [ensure_nextOptionId]
      · rw [ensure_nextLongId]
    | none =>
      rw [sync_long_of_absent today sh bp hf]
      dsimp only
      refine ⟨⟨?_, ?_, ?_, ?_⟩, ?_, ?_⟩
      · rw [ensure_options]; exact hnd
      · rw [ensure_options, ensure_nextOptionId]; exact hbd
      · rw [List.map_append, List.nodup_append]
        refine ⟨hndL, List.nodup_singleton _, ?_⟩
        intro a ha hb
        simp only [List.map_cons, List.map_nil, List.mem_singleton] at hb
        obtain ⟨x, hx, hxa⟩ := List.mem_map.mp ha
        subst hb
        rw [← hxa] at hbdL
        exact absurd (hbdL x hx) (by rw [hxa]; exact lt_irrefl _)
      · intro r hr
        rcases List.mem_append.mp hr with h1 | h1
        · exact Nat.lt_succ_of_lt (hbdL r h1)
        · simp only [List.mem_singleton] at h1
          subst h1
          exact Nat.lt_succ_self _
      · rw [ensure_nextOptionId]
      · exact Nat.le_succ _
  | skip =>
    rw [stepDB_skip today db h]
    exact ⟨⟨hnd, hbd, hndL, hbdL⟩, le_refl _, le_refl _⟩
  | err msg =>
    rw [stepDB_err today db h]
    exact ⟨⟨hnd, hbd, hndL, hbdL⟩, le_refl _, le_refl _⟩

theorem loopDB_WF (today : YMD) (ps : List IBPosition) :
    ∀ db : DB, DB.WF db →
      DB.WF (List.foldl (stepDB today) db ps) ∧
        db.nextOptionId ≤ (List.foldl (stepDB today) db ps).nextOptionId ∧
        db.nextLongId ≤ (List.foldl (stepDB today) db ps).nextLongId := by
  induction ps with
  | nil => intro db hwf; exact ⟨hwf, le_refl _, le_refl _⟩
  | cons p ps ih =>
    intro db hwf
    obtain ⟨hwf1, hm1, hm1L⟩ := stepDB_WF today db p hwf
    obtain ⟨hwf2, hm2, hm2L⟩ := ih (stepDB today db p) hwf1
    exact ⟨hwf2, le_trans hm1 hm2, le_trans hm1L hm2L⟩

/-! ### Characterisation of the closure statements -/

theorem closeOptRow_self {today : YMD} {keep : List Nat} {r : OptionRow}
    (h : ¬(r.closed = none ∧ r.id ∉ keep)) : closeOptRow today keep r = r := by
  unfold closeOptRow
  rw [if_neg h]

theorem closeLongRow_self {today : YMD} {keep : List String} {r : LongRow}
    (h : ¬(r.closed = none ∧ r.symbol ∉ keep)) : closeLongRow today keep r = r := by
  unfold closeLongRow
  rw [if_neg h]

theorem closeLongRow_kept {today : YMD} {keep : List String} {r : LongRow}
    (h : r.symbol ∈ keep) : closeLongRow today keep r = r := by
  unfold closeLongRow
  split
  · next hc => exact absurd h hc.2
  · rfl

theorem closeLongRow_dropped {today : YMD} {keep : List String} {r : LongRow}
    (ho : r.closed = none) (h : r.symbol ∉ keep) :
    closeLongRow today keep r = { r with closed := some today } := by
  unfold closeLongRow
  rw [if_pos ⟨ho, h⟩]

@[simp] theorem close_opt_longPositions (today : YMD) (db : DB) (ids : List Nat) :
    (close_missing_options today db ids).1.longPositions = db.longPositions := by
  rw [close_missing_options_eq]

@[simp] theorem close_opt_nextOptionId (today : YMD) (db : DB) (ids : List Nat) :
    (close_missing_options today db ids).1.nextOptionId = db.nextOptionId := by
  rw [close_missing_options_eq]

@[simp] theorem close_opt_nextLongId (today : YMD) (db : DB) (ids : List Nat) :
    (close_missing_options today db ids).1.nextLongId = db.nextLongId := by
  rw [close_missing_options_eq]

@[simp] theorem close_opt_options (today : YMD) (db : DB) (ids : List Nat) :
    (close_missing_options today db ids).1.options =
      db.options.map (closeOptRow today ids) := by
  rw [close_missing_options_eq]

@[simp] theorem close_long_options (today : YMD) (db : DB) (syms : List String) :
    (close_missing_long_positions today db syms).1.options = db.options := by
  rw [close_missing_long_positions_eq]

@[simp] theorem close_long_nextOptionId (today : YMD) (db : DB) (syms : List String) :
    (close_missing_long_positions today db syms).1.nextOptionId = db.nextOptionId := by
  rw [close_missing_long_positions_eq]

@[simp] theorem close_long_nextLongId (today : YMD) (db : DB) (syms : List String) :
    (close_missing_long_positions today db syms).1.nextLongId = db.nextLongId := by
  rw [close_missing_long_positions_eq]

@[simp] theorem close_long_longPositions (today : YMD) (db : DB) (syms : List String) :
    (close_missing_long_positions today db syms).1.longPositions =
      db.longPositions.map (closeLongRow today syms) := by
  rw [close_missing_long_positions_eq]

/-- An open row of the options table after closure is an untouched open row
whose id was in the keep list. -/
theorem close_opt_open_inv {today : YMD} {db : DB} {ids : List Nat} {r' : OptionRow}
    (hmem : r' ∈ (close_missing_options today db ids).1.options)
    (hopen : r'.closed = none) :
    r' ∈ db.options ∧ r'.id ∈ ids := by
  rw [close_opt_options] at hmem
  obtain ⟨x, hx, rfl⟩ := List.mem_map.mp hmem
  by_cases hcond : x.closed = none ∧ x.id ∉ ids
  · exfalso
    rw [closeOptRow_closed_of_dropped today ids x hcond.1 hcond.2] at hopen
    simp at hopen
  · rw [closeOptRow_self hcond] at hopen ⊢
    push_neg at hcond
    exact ⟨hx, hcond hopen⟩

/-- An open row whose id is in the keep list survives closure unchanged. -/
theorem close_opt_open_kept {today : YMD} {db : DB} {ids : List Nat} {r : OptionRow}
    (hmem : r ∈ db.options) (hid : r.id ∈ ids) :
    r ∈ (close_missing_options today db ids).1.options := by
  rw [close_opt_options]
  have := closeOptRow_closed_of_kept today ids r hid
  rw [← this]
  exact List.mem_map_of_mem _ hmem

/-- An open row whose id is absent from the keep list is closed with today's
date. -/
theorem close_opt_open_dropped {today : YMD} {db : DB} {ids : List Nat} {r : OptionRow}
    (hmem : r ∈ db.options) (ho : r.closed = none) (hid : r.id ∉ ids) :
    { r with closed := some today } ∈ (close_missing_options today db ids).1.options := by
  rw [close_opt_options]
  have := closeOptRow_closed_of_dropped today ids r ho hid
  rw [← this]
  exact List.mem_map_of_mem _ hmem

/-- An open row of the share table after closure is an untouched open row
whose symbol was in the keep list. -/
theorem close_long_open_inv {today : YMD} {db : DB} {syms : List String} {r' : LongRow}
    (hmem : r' ∈ (close_missing_long_positions today db syms).1.longPositions)
    (hopen : r'.closed = none) :
    r' ∈ db.longPositions ∧ r'.symbol ∈ syms := by
  rw [close_long_longPositions] at hmem
  obtain ⟨x, hx, rfl⟩ := List.mem_map.mp hmem
  by_cases hcond : x.closed = none ∧ x.symbol ∉ syms
  · exfalso
    rw [closeLongRow_dropped hcond.1 hcond.2] at hopen
    simp at hopen
  · rw [closeLongRow_self hcond] at hopen ⊢
    push_neg at hcond
    exact ⟨hx, hcond hopen⟩

/-- An open share row whose symbol is in the keep list survives closure. -/
theorem close_long_open_kept {today : YMD} {db : DB} {syms : List String} {r : LongRow}
    (hmem : r ∈ db.longPositions) (hsym : r.symbol ∈ syms) :
    r ∈ (close_missing_long_positions today db syms).1.longPositions := by
  rw [close_long_longPositions]
  rw [← closeLongRow_kept hsym]
  exact List.mem_map_of_mem _ hmem

/-- An open share row whose symbol is absent from the keep list is closed. -/
theorem close_long_open_dropped {today : YMD} {db : DB} {syms : List String} {r : LongRow}
    (hmem : r ∈ db.longPositions) (ho : r.closed = none) (hsym : r.symbol ∉ syms) :
    { r with closed := some today } ∈
      (close_missing_long_positions today db syms).1.longPositions := by
  rw [close_long_longPositions]
  rw [← closeLongRow_dropped ho hsym]
  exact List.mem_map_of_mem _ hmem

theorem close_opt_WF {today : YMD} {db : DB} {ids : List Nat} (hwf : DB.WF db) :
    DB.WF (close_missing_options today db ids).1 := by
  obtain ⟨hnd, hbd, hndL, hbdL⟩ := hwf
  refine ⟨?_, ?_, ?_, ?_⟩
  · rw [close_opt_options, List.map_map]
    have : (OptionRow.id ∘ closeOptRow today ids) = OptionRow.id := by
      funext r; simp
    rw [this]
    exact hnd
  · intro r hr
    rw [close_opt_options] at hr
    obtain ⟨x, hx, rfl⟩ := List.mem_map.mp hr
    simpa using hbd x hx
  · simpa using hndL
  · intro r hr
    rw [close_opt_longPositions] at hr
    simpa using hbdL r hr

theorem close_long_WF {today : YMD} {db : DB} {syms : List String} (hwf : DB.WF db) :
    DB.WF (close_missing_long_positions today db syms).1 := by
  obtain ⟨hnd, hbd, hndL, hbdL⟩ := hwf
  refine ⟨?_, ?_, ?_, ?_⟩
  · simpa using hnd
  · intro r hr
    rw [close_long_options] at hr
    simpa using hbd r hr
  · rw [close_long_longPositions, List.map_map]
    have : (LongRow.id ∘ closeLongRow today syms) = LongRow.id := by
      funext r; simp
    rw [this]
    exact hndL
  · intro r hr
    rw [close_long_longPositions] at hr
    obtain ⟨x, hx, rfl⟩ := List.mem_map.mp hr
    simpa using hbdL x hx

/-! ### Classification of item outcomes -/

theorem secType_of_opt {p : IBPosition} {k : OptKey} {c : Nat} {m : Rat}
    (h : itemOutcome p = .opt k c m) : p.secType = "OPT" := by
  unfold itemOutcome at h
  by_cases hopt : p.secType = "OPT"
  · exact hopt
  · rw [if_neg hopt] at h
    by_cases hstk : p.secType = "STK" <;> simp [hstk] at h

theorem secType_of_stk {p : IBPosition} {sym : String} {sh : Int} {bp : Rat}
    (h : itemOutcome p = .stk sym sh bp) : p.secType = "STK" := by
  unfold itemOutcome at h
  by_cases hopt : p.secType = "OPT"
  · rw [if_pos hopt] at h
    cases hp : parseExpiration p.expiration with
    | none => rw [hp] at h; simp at h
    | some e =>
      rw [hp] at h
      by_cases hm : (p.multiplier.getD 100) = 0 <;> simp [hm] at h
  · rw [if_neg hopt] at h
    by_cases hstk : p.secType = "STK"
    · exact hstk
    · simp [hstk] at h

theorem stk_of_secType {p : IBPosition} (h : p.secType = "STK") :
    itemOutcome p = .stk p.symbol p.position p.avgCost := by
  unfold itemOutcome
  have hopt : ¬ p.secType = "OPT" := by rw [h]; intro hc; exact absurd hc (by decide)
  rw [if_neg hopt, if_pos h]

theorem err_shape {p : IBPosition} {msg : String} (h : itemOutcome p = .err msg) :
    ∃ exc, msg = itemErrorString p.symbol exc := by
  unfold itemOutcome at h
  by_cases hopt : p.secType = "OPT"
  · rw [if_pos hopt] at h
    cases hp : parseExpiration p.expiration with
    | none => rw [hp] at h; exact ⟨"invalid expiration date", by simpa using h.symm⟩
    | some e =>
      rw [hp] at h
      by_cases hm : (p.multiplier.getD 100) = 0
      · simp [hm] at h
        exact ⟨"float division by zero", h.symm⟩
      · simp [hm] at h
  · rw [if_neg hopt] at h
    by_cases hstk : p.secType = "STK" <;> simp [hstk] at h

/-- The stock_symbols accumulator is exactly the symbols of the snapshot's
stock items: share derivation never fails. -/
theorem stkSyms_eq_filter (ps : List IBPosition) :
    stkSyms ps = (ps.filter (fun p => decide (p.secType = "STK"))).map IBPosition.symbol := by
  induction ps with
  | nil => rfl
  | cons p ps ih =>
    rw [stkSyms_cons, ih]
    by_cases hstk : p.secType = "STK"
    · rw [stk_of_secType hstk]
      simp [hstk]
    · have : ∀ k c m, itemOutcome p ≠ .stk k c m := by
        intro k c m hc
        exact hstk (secType_of_stk hc)
      cases h : itemOutcome p with
      | stk sym sh bp => exact absurd h (this sym sh bp)
      | opt k c m => simp [hstk]
      | skip => simp [hstk]
      | err m => simp [hstk]

theorem loopIds_nil_of_no_opt (today : YMD) (ps : List IBPosition)
    (h : ∀ p ∈ ps, p.secType ≠ "OPT") :
    ∀ db : DB, loopIds today db ps = [] := by
  induction ps with
  | nil => intro db; rfl
  | cons p ps ih =>
    intro db
    unfold loopIds
    cases hout : itemOutcome p with
    | opt k c m => exact absurd (secType_of_opt hout) (h p (List.mem_cons_self p ps))
    | stk sym sh bp =>
      exact ih (fun q hq => h q (List.mem_cons_of_mem p hq)) _
    | skip => exact ih (fun q hq => h q (List.mem_cons_of_mem p hq)) _
    | err m => exact ih (fun q hq => h q (List.mem_cons_of_mem p hq)) _

theorem okKeys_nil_of_no_opt (ps : List IBPosition)
    (h : ∀ p ∈ ps, p.secType ≠ "OPT") : okKeys ps = [] := by
  induction ps with
  | nil => rfl
  | cons p ps ih =>
    rw [okKeys_cons]
    cases hout : itemOutcome p with
    | opt k c m => exact absurd (secType_of_opt hout) (h p (List.mem_cons_self p ps))
    | stk sym sh bp => exact ih (fun q hq => h q (List.mem_cons_of_mem p hq))
    | skip => exact ih (fun q hq => h q (List.mem_cons_of_mem p hq))
    | err m => exact ih (fun q hq => h q (List.mem_cons_of_mem p hq))

theorem stkSyms_nil_of_no_stk (ps : List IBPosition)
    (h : ∀ p ∈ ps, p.secType ≠ "STK") : stkSyms ps = [] := by
  rw [stkSyms_eq_filter]
  have : ps.filter (fun p => decide (p.secType = "STK")) = [] := by
    rw [List.filter_eq_nil_iff]
    intro p hp
    simpa using h p hp
  rw [this]
  rfl

/-! ### The synced row: each successful option item leaves an open row with
its key, under the returned id -/

theorem sync_opt_row_exists (today : YMD) (db : DB) (k : OptKey) (c : Nat) (m : Rat) :
    ∃ r1 ∈ (sync_option_position today db k c m).1.options,
      r1.id = (sync_option_position today db k c m).2 ∧
      r1.closed = none ∧ r1.key = k := by
  cases hf : firstOpenOpt db k with
  | some r0 =>
    obtain ⟨hmem, hkey, hclosed⟩ := firstOpenOpt_some hf
    rw [sync_opt_of_found today c m hf]
    refine ⟨setOptVals r0.id c m r0, ?_, ?_, ?_, ?_⟩
    · exact List.mem_map_of_mem _ hmem
    · simp
    · simp [hclosed]
    · simp [hkey]
  | none =>
    rw [sync_opt_of_absent today c m hf]
    refine ⟨⟨db.nextOptionId, k.symbol, k.type, k.strike, k.expiration, m, c, today, none⟩,
      ?_, rfl, rfl, rfl⟩
    exact List.mem_append_right _ (List.mem_singleton_self _)

theorem sync_long_row_exists (today : YMD) (db : DB) (sym : String) (sh : Int) (bp : Rat) :
    ∃ r1 ∈ (sync_long_position today db sym sh bp).1.longPositions,
      r1.closed = none ∧ r1.symbol = sym := by
  cases hf : pickLatestOpen db sym with
  | some r0 =>
    obtain ⟨hmem, hsym, hclosed⟩ := pickLatestOpen_some hf
    rw [sync_long_of_found today sh bp hf]
    refine ⟨setLongVals r0.id sh bp r0, ?_, ?_, ?_⟩
    · exact List.mem_map_of_mem _ hmem
    · simp [hclosed]
    · simp [hsym]
  | none =>
    rw [sync_long_of_absent today sh bp hf]
    refine ⟨⟨db.nextLongId, sym, today, sh, bp, none⟩, ?_, rfl, rfl⟩
    exact List.mem_append_right _ (List.mem_singleton_self _)

/-- Injectivity of row ids among option rows of a well-formed database. -/
theorem WF_opt_inj {db : DB} (hwf : DB.WF db) {r1 r2 : OptionRow}
    (h1 : r1 ∈ db.options) (h2 : r2 ∈ db.options) (hid : r1.id = r2.id) : r1 = r2 :=
  List.inj_on_of_nodup_map hwf.1 h1 h2 hid

theorem WF_long_inj {db : DB} (hwf : DB.WF db) {r1 r2 : LongRow}
    (h1 : r1 ∈ db.longPositions) (h2 : r2 ∈ db.longPositions)
    (hid : r1.id = r2.id) : r1 = r2 :=
  List.inj_on_of_nodup_map hwf.2.2.1 h1 h2 hid

/-! ### Soundness of the accumulated ids: every id in option_ids denotes an
open row whose key comes from the snapshot -/

theorem loopIds_sound (today : YMD) (ps : List IBPosition) :
    ∀ db : DB, DB.WF db →
      ∀ i ∈ loopIds today db ps,
        ∀ r' ∈ (List.foldl (stepDB today) db ps).options,
          r'.id = i → r'.closed = none ∧ r'.key ∈ okKeys ps := by
  induction ps with
  | nil => intro db _ i hi; simp [loopIds] at hi
  | cons p ps ih =>
    intro db hwf i hi r' hr' hid
    have hwf1 : DB.WF (stepDB today db p) := (stepDB_WF today db p hwf).1
    rw [List.foldl_cons] at hr'
    unfold loopIds at hi
    cases hout : itemOutcome p with
    | opt k c m =>
      rw [hout] at hi
      rcases List.mem_append.mp hi with hpre | hrest
      · simp only [List.mem_singleton] at hpre
        subst hpre
        obtain ⟨r1, hr1mem, hr1id, hr1closed, hr1key⟩ :=
          sync_opt_row_exists today db k c m
        have hr1mem' : r1 ∈ (stepDB today db p).options := by
          rw [stepDB_opt today db hout]; exact hr1mem
        obtain ⟨r2, hr2mem, hskel⟩ :=
          loopDB_opt_persist today ps (stepDB today db p) r1 hr1mem'
        have hwfF : DB.WF (List.foldl (stepDB today) (stepDB today db p) ps) :=
          (loopDB_WF today ps _ hwf1).1
        have : r' = r2 := WF_opt_inj hwfF hr' hr2mem (by rw [hid, ← hr1id, ← hskel.1])
        subst this
        refine ⟨by rw [hskel.2.2.2, hr1closed], ?_⟩
        rw [okKeys_cons, hout]
        exact List.mem_append_left _ (by simp [hskel.2.1, hr1key])
      · have := ih (stepDB today db p) hwf1 i hrest r' hr' hid
        refine ⟨this.1, ?_⟩
        rw [okKeys_cons, hout]
        exact List.mem_append_right _ this.2
    | stk sym sh bp =>
      rw [hout] at hi
      simp only [List.nil_append] at hi
      have := ih (stepDB today db p) hwf1 i hi r' hr' hid
      refine ⟨this.1, ?_⟩
      rw [okKeys_cons, hout]
      exact List.mem_append_right _ this.2
    | skip =>
      rw [hout] at hi
      simp only [List.nil_append] at hi
      have := ih (stepDB today db p) hwf1 i hi r' hr' hid
      refine ⟨this.1, ?_⟩
      rw [okKeys_cons, hout]
      exact List.mem_append_right _ this.2
    | err msg =>
      rw [hout] at hi
      simp only [List.nil_append] at hi
      have := ih (stepDB today db p) hwf1 i hi r' hr' hid
      refine ⟨this.1, ?_⟩
      rw [okKeys_cons, hout]
      exact List.mem_append_right _ this.2

/-! ### Completeness: every derivable key ends in an open row whose id was
accumulated -/

theorem loopIds_complete (today : YMD) (ps : List IBPosition) :
    ∀ db : DB, ∀ k ∈ okKeys ps,
      ∃ r' ∈ (List.foldl (stepDB today) db ps).options,
        r'.closed = none ∧ r'.key = k ∧ r'.id ∈ loopIds today db ps := by
  induction ps with
  | nil => intro db k hk; simp [okKeys] at hk
  | cons p ps ih =>
    intro db k hk
    rw [okKeys_cons] at hk
    rw [List.foldl_cons]
    cases hout : itemOutcome p with
    | opt k0 c m =>
      rw [hout] at hk
      rcases List.mem_append.mp hk with hpre | hrest
      · simp only [List.mem_singleton] at hpre
        subst hpre
        obtain ⟨r1, hr1mem, hr1id, hr1closed, hr1key⟩ :=
          sync_opt_row_exists today db k c m
        have hr1mem' : r1 ∈ (stepDB today db p).options := by
          rw [stepDB_opt today db hout]; exact hr1mem
        obtain ⟨r2, hr2mem, hskel⟩ :=
          loopDB_opt_persist today ps (stepDB today db p) r1 hr1mem'
        refine ⟨r2, hr2mem, by rw [hskel.2.2.2, hr1closed], by rw [hskel.2.1, hr1key], ?_⟩
        unfold loopIds
        rw [hout]
        refine List.mem_append_left _ ?_
        simp [hskel.1, hr1id]
      · obtain ⟨r', hmem, hcl, hkey, hids⟩ := ih (stepDB today db p) k hrest
        refine ⟨r', hmem, hcl, hkey, ?_⟩
        unfold loopIds
        rw [hout]
        exact List.mem_append_right _ hids
    | stk sym sh bp =>
      rw [hout] at hk
      simp only [List.nil_append] at hk
      obtain ⟨r', hmem, hcl, hkey, hids⟩ := ih (stepDB today db p) k hk
      refine ⟨r', hmem, hcl, hkey, ?_⟩
      unfold loopIds
      rw [hout]
      simp only [List.nil_append]
      exact hids
    | skip =>
      rw [hout] at hk
      simp only [List.nil_append] at hk
      obtain ⟨r', hmem, hcl, hkey, hids⟩ := ih (stepDB today db p) k hk
      refine ⟨r', hmem, hcl, hkey, ?_⟩
      unfold loopIds
      rw [hout]
      simp only [List.nil_append]
      exact hids
    | err msg =>
      rw [hout] at hk
      simp only [List.nil_append] at hk
      obtain ⟨r', hmem, hcl, hkey, hids⟩ := ih (stepDB today db p) k hk
      refine ⟨r', hmem, hcl, hkey, ?_⟩
      unfold loopIds
      rw [hout]
      simp only [List.nil_append]
      exact hids

theorem loopSyms_complete (today : YMD) (ps : List IBPosition) :
    ∀ db : DB, ∀ sym ∈ stkSyms ps,
      ∃ r' ∈ (List.foldl (stepDB today) db ps).longPositions,
        r'.closed = none ∧ r'.symbol = sym := by
  induction ps with
  | nil => intro db sym hs; simp [stkSyms] at hs
  | cons p ps ih =>
    intro db sym hs
    rw [stkSyms_cons] at hs
    rw [List.foldl_cons]
    cases hout : itemOutcome p with
    | stk sym0 sh bp =>
      rw [hout] at hs
      rcases List.mem_append.mp hs with hpre | hrest
      · simp only [List.mem_singleton] at hpre
        subst hpre
        obtain ⟨r1, hr1mem, hr1closed, hr1sym⟩ :=
          sync_long_row_exists today db sym sh bp
        have hr1mem' : r1 ∈ (stepDB today db p).longPositions := by
          rw [stepDB_stk today db hout]; exact hr1mem
        obtain ⟨r2, hr2mem, hskel⟩ :=
          loopDB_long_persist today ps (stepDB today db p) r1 hr1mem'
        exact ⟨r2, hr2mem, by rw [hskel.2.2.2, hr1closed], by rw [hskel.2.1, hr1sym]⟩
      · exact ih (stepDB today db p) sym hrest
    | opt k c m =>
      rw [hout] at hs
      simp only [List.nil_append] at hs
      exact ih (stepDB today db p) sym hs
    | skip =>
      rw [hout] at hs
      simp only [List.nil_append] at hs
      exact ih (stepDB today db p) sym hs
    | err msg =>
      rw [hout] at hs
      simp only [List.nil_append] at hs
      exact ih (stepDB today db p) sym hs

/-! ### Assembly: the whole pass -/

theorem runLoop_eq (today : YMD) (db : DB) (ps : List IBPosition) :
    runLoop today db ps =
      ⟨List.foldl (stepDB today) db ps, loopIds today db ps, stkSyms ps,
       errsOf ps, (okKeys ps).length, (stkSyms ps).length⟩ := by
  unfold runLoop
  rw [loop_decomp]
  simp

theorem passDB_eq (today : YMD) (ps : List IBPosition) (db : DB) :
    passDB today ps db =
      (close_missing_long_positions today
        (close_missing_options today (List.foldl (stepDB today) db ps)
          (loopIds today db ps)).1
        (stkSyms ps)).1 := by
  unfold passDB
  rw [runLoop_eq]

theorem mem_openOptKeys {db : DB} {k : OptKey} :
    k ∈ openOptKeys db ↔ ∃ r, r ∈ db.options ∧ r.closed = none ∧ r.key = k := by
  unfold openOptKeys
  simp only [List.mem_map, List.mem_filter, Option.isNone_iff_eq_none]
  constructor
  · rintro ⟨r, ⟨hr, hc⟩, hk⟩
    exact ⟨r, hr, hc, hk⟩
  · rintro ⟨r, hr, hc, hk⟩
    exact ⟨r, ⟨hr, hc⟩, hk⟩

theorem mem_openShareSymbols {db : DB} {sym : String} :
    sym ∈ openShareSymbols db ↔
      ∃ r, r ∈ db.longPositions ∧ r.closed = none ∧ r.symbol = sym := by
  unfold openShareSymbols
  simp only [List.mem_map, List.mem_filter, Option.isNone_iff_eq_none]
  constructor
  · rintro ⟨r, ⟨hr, hc⟩, hk⟩
    exact ⟨r, hr, hc, hk⟩
  · rintro ⟨r, hr, hc, hk⟩
    exact ⟨r, ⟨hr, hc⟩, hk⟩

/-- Core convergence of one reconciliation pass: the open option keys are
exactly the derivable snapshot keys, the open share symbols exactly the
snapshot's stock symbols. -/
theorem passDB_open (today : YMD) (ps : List IBPosition) (db : DB) (hwf : DB.WF db) :
    (∀ k : OptKey, k ∈ openOptKeys (passDB today ps db) ↔ k ∈ okKeys ps) ∧
    (∀ sym : String, sym ∈ openShareSymbols (passDB today ps db) ↔ sym ∈ stkSyms ps) := by
  rw [passDB_eq]
  constructor
  · intro k
    rw [mem_openOptKeys]
    constructor
    · rintro ⟨r, hr, hc, hk⟩
      rw [close_long_options] at hr
      obtain ⟨hmem, hid⟩ := close_opt_open_inv hr hc
      have := loopIds_sound today ps db hwf r.id hid r hmem rfl
      rw [← hk]
      exact this.2
    · intro hk
      obtain ⟨r, hmem, hc, hkey, hid⟩ := loopIds_complete today ps db k hk
      refine ⟨r, ?_, hc, hkey⟩
      rw [close_long_options]
      exact close_opt_open_kept hmem hid
  · intro sym
    rw [mem_openShareSymbols]
    constructor
    · rintro ⟨r, hr, hc, hs⟩
      rw [close_long_longPositions, close_opt_longPositions] at hr
      obtain ⟨x, hx, rfl⟩ := List.mem_map.mp hr
      by_cases hcond : x.closed = none ∧ x.symbol ∉ stkSyms ps
      · exfalso
        rw [closeLongRow_dropped hcond.1 hcond.2] at hc
        simp at hc
      · rw [closeLongRow_self hcond] at hc hs
        push_neg at hcond
        rw [← hs]
        exact hcond hc
    · intro hs
      obtain ⟨r, hmem, hc, hsym⟩ := loopSyms_complete today ps db sym hs
      refine ⟨r, ?_, hc, hsym⟩
      have hmem1 : r ∈ (close_missing_options today (List.foldl (stepDB today) db ps)
          (loopIds today db ps)).1.longPositions := by
        rw [close_opt_longPositions]
        exact hmem
      exact @close_long_open_kept today _ _ _ hmem1 (by rw [hsym]; exact hs)

theorem passDB_WF (today : YMD) (ps : List IBPosition) (db : DB) (hwf : DB.WF db) :
    DB.WF (passDB today ps db) := by
  rw [passDB_eq]
  exact close_long_WF (close_opt_WF (loopDB_WF today ps db hwf).1)

theorem sync_positions_ok (ps : List IBPosition) (db : DB) (today : YMD) (now : String) :
    sync_positions (okEnv ps) db today now =
      { result := { success := true, syncedAt := some now,
                    optionsSynced := (okKeys ps).length,
                    positionsSynced := (stkSyms ps).length,
                    optionsClosed :=
                      (close_missing_options today (List.foldl (stepDB today) db ps)
                        (loopIds today db ps)).2,
                    positionsClosed :=
                      (close_missing_long_positions today
                        (close_missing_options today (List.foldl (stepDB today) db ps)
                          (loopIds today db ps)).1 (stkSyms ps)).2,
                    errors := errsOf ps },
        db := passDB today ps db } := by
  unfold sync_positions okEnv
  rw [if_neg (by simp)]
  simp only [runLoop_eq, passDB_eq]

/-- C1: after one successful reconciliation pass, the set of identity keys of
open option rows equals exactly the set of option identity keys derivable
from the snapshot, and the set of symbols of open share rows equals exactly
the set of symbols of the snapshot's stock items. -/
theorem C1_convergence (today : YMD) (now : String) (db : DB) (ps : List IBPosition)
    (hwf : DB.WF db) :
    (sync_positions (okEnv ps) db today now).result.success = true ∧
    (∀ k : OptKey,
      k ∈ openOptKeys (sync_positions (okEnv ps) db today now).db ↔ k ∈ okKeys ps) ∧
    (∀ sym : String,
      sym ∈ openShareSymbols (sync_positions (okEnv ps) db today now).db ↔
        sym ∈ (ps.filter (fun p => decide (p.secType = "STK"))).map IBPosition.symbol) := by
  rw [sync_positions_ok]
  obtain ⟨hkeys, hsyms⟩ := passDB_open today ps db hwf
  refine ⟨rfl, hkeys, ?_⟩
  intro sym
  rw [← stkSyms_eq_filter]
  exact hsyms sym

/-- Witness for C1 at a concrete store and snapshot. -/
theorem C1_convergence_witness :
    (sync_positions (okEnv [posAAPL, posMSFT]) dbW t0 "T").result.success = true ∧
    (rowAAPL.key ∈ openOptKeys (sync_positions (okEnv [posAAPL, posMSFT]) dbW t0 "T").db ↔
      rowAAPL.key ∈ okKeys [posAAPL, posMSFT]) ∧
    ("MSFT" ∈ openShareSymbols (sync_positions (okEnv [posAAPL, posMSFT]) dbW t0 "T").db ↔
      "MSFT" ∈ ([posAAPL, posMSFT].filter
        (fun p => decide (p.secType = "STK"))).map IBPosition.symbol) := by
  obtain ⟨h1, h2, h3⟩ := C1_convergence t0 "T" dbW [posAAPL, posMSFT] (by decide)
  exact ⟨h1, h2 rowAAPL.key, h3 "MSFT"⟩

/-- C2: a snapshot without option items closes every previously open option
row with today's date; symmetrically a snapshot without stock items closes
every previously open share row. -/
theorem C2_empty_snapshot_closure (today : YMD) (now : String) (db : DB)
    (ps : List IBPosition) (hwf : DB.WF db) :
    ((∀ p ∈ ps, p.secType ≠ "OPT") →
      ∀ r ∈ db.options, r.closed = none →
        ∃ r' ∈ (sync_positions (okEnv ps) db today now).db.options,
          r'.id = r.id ∧ r'.closed = some today) ∧
    ((∀ p ∈ ps, p.secType ≠ "STK") →
      ∀ r ∈ db.longPositions, r.closed = none →
        ∃ r' ∈ (sync_positions (okEnv ps) db today now).db.longPositions,
          r'.id = r.id ∧ r'.closed = some today) := by
  rw [sync_positions_ok]
  dsimp only
  rw [passDB_eq]
  constructor
  · intro hno r hr hc
    obtain ⟨r1, hr1, hskel⟩ := loopDB_opt_persist today ps db r hr
    have hids : loopIds today db ps = [] := loopIds_nil_of_no_opt today ps hno db
    have hdropped := @close_opt_open_dropped today (List.foldl (stepDB today) db ps)
      (loopIds today db ps) r1 hr1 (by rw [hskel.2.2.2]; exact hc)
      (by rw [hids]; exact List.not_mem_nil _)
    refine ⟨{ r1 with closed := some today }, ?_, ?_, rfl⟩
    · rw [close_long_options]
      exact hdropped
    · show r1.id = r.id
      exact hskel.1
  · intro hno r hr hc
    obtain ⟨r1, hr1, hskel⟩ := loopDB_long_persist today ps db r hr
    have hsyms : stkSyms ps = [] := stkSyms_nil_of_no_stk ps hno
    have hr1' : r1 ∈ (close_missing_options today (List.foldl (stepDB today) db ps)
        (loopIds today db ps)).1.longPositions := by
      rw [close_opt_longPositions]
      exact hr1
    have hdropped := @close_long_open_dropped today
      (close_missing_options today (List.foldl (stepDB today) db ps) (loopIds today db ps)).1
      (stkSyms ps) r1 hr1' (by rw [hskel.2.2.2]; exact hc)
      (by rw [hsyms]; exact List.not_mem_nil _)
    refine ⟨{ r1 with closed := some today }, hdropped, ?_, rfl⟩
    show r1.id = r.id
    exact hskel.1

/-- Witness for C2: an empty snapshot closes the open AAPL option row and the
open MSFT share row. -/
theorem C2_empty_snapshot_closure_witness :
    (∃ r' ∈ (sync_positions (okEnv []) dbW t0 "T").db.options,
      r'.id = rowAAPL.id ∧ r'.closed = some t0) ∧
    (∃ r' ∈ (sync_positions (okEnv []) dbW t0 "T").db.longPositions,
      r'.id = rowMSFT.id ∧ r'.closed = some t0) := by
  obtain ⟨h1, h2⟩ := C2_empty_snapshot_closure t0 "T" dbW [] (by decide)
  exact ⟨h1 (by simp) rowAAPL (by simp [dbW]) rfl,
         h2 (by simp) rowMSFT (by simp [dbW]) rfl⟩

/-! ### Canonical ids: every accumulated id is the first-open-match of its key -/

theorem firstOpenOpt_map_set (db : DB) (l : List OptionRow) (i : Nat) (c : Nat)
    (m : Rat) (k : OptKey) (h : db.options = l.map (setOptVals i c m)) :
    firstOpenOpt db k = (l.find? (fun r => decide (r.key = k ∧ r.closed = none))).map
      (setOptVals i c m) := by
  unfold firstOpenOpt
  rw [h, List.find?_map]
  have : ((fun r : OptionRow => decide (r.key = k ∧ r.closed = none)) ∘ setOptVals i c m) =
      (fun r : OptionRow => decide (r.key = k ∧ r.closed = none)) := by
    funext r
    simp
  rw [this]

theorem firstOpenId_map_set {dbA dbB : DB} (i : Nat) (c : Nat) (m : Rat)
    (h : dbB.options = dbA.options.map (setOptVals i c m)) (k : OptKey) :
    firstOpenId dbB k = firstOpenId dbA k := by
  unfold firstOpenId
  rw [firstOpenOpt_map_set dbB dbA.options i c m k h]
  unfold firstOpenOpt
  cases hf : dbA.options.find? (fun r => decide (r.key = k ∧ r.closed = none)) <;> simp [hf]

theorem firstOpenOpt_append_one {dbA dbB : DB} {x : OptionRow}
    (h : dbB.options = dbA.options ++ [x]) (k : OptKey) :
    firstOpenOpt dbB k =
      (firstOpenOpt dbA k).or
        (if x.key = k ∧ x.closed = none then some x else none) := by
  unfold firstOpenOpt
  rw [h, List.find?_append]
  cases hf : dbA.options.find? (fun r => decide (r.key = k ∧ r.closed = none)) with
  | some r => simp
  | none =>
    simp only [Option.none_or, List.find?]
    by_cases h1 : x.key = k <;> by_cases h2 : x.closed = none <;> simp [h1, h2]

theorem stepDB_canon (today : YMD) (db : DB) (p : IBPosition) (ids : List Nat)
    (hwf : DB.WF db) (hcanon : IdsCanon db ids) :
    IdsCanon (stepDB today db p)
      (ids ++ (match itemOutcome p with
               | .opt k c m => [(sync_option_position today db k c m).2]
               | _ => [])) := by
  cases hout : itemOutcome p with
  | opt k c m =>
    rw [stepDB_opt today db hout]
    cases hf : firstOpenOpt db k with
    | some r0 =>
      obtain ⟨hr0mem, hr0key, hr0closed⟩ := firstOpenOpt_some hf
      rw [sync_opt_of_found today c m hf]
      intro i hi r hr hid
      dsimp only at hr
      have hopts : ({ ensure_symbol_exists db k.symbol with
          options := db.options.map (setOptVals r0.id c m) } : DB).options =
          db.options.map (setOptVals r0.id c m) := rfl
      obtain ⟨x, hx, rfl⟩ := List.mem_map.mp hr
      have hfid := firstOpenId_map_set r0.id c m hopts
      rcases List.mem_append.mp hi with hold | hnew
      · obtain ⟨hcl, hfo⟩ := hcanon i hold x hx (by simpa using hid)
        refine ⟨by simpa using hcl, ?_⟩
        rw [hfid, setOptVals_key]
        exact hfo
      · simp only [sync_opt_of_found today c m hf, List.mem_singleton] at hnew
        subst hnew
        have hx0 : x = r0 := WF_opt_inj hwf hx hr0mem (by simpa using hid)
        subst hx0
        refine ⟨by simpa using hr0closed, ?_⟩
        rw [hfid, setOptVals_key, hr0key]
        unfold firstOpenId
        rw [hf]
        simpa using hid
    | none =>
      rw [sync_opt_of_absent today c m hf]
      intro i hi r hr hid
      dsimp only at hr
      have hopts : ({ ensure_symbol_exists db k.symbol with
          options := db.options ++
            [⟨db.nextOptionId, k.symbol, k.type, k.strike, k.expiration, m, c, today, none⟩],
          nextOptionId := db.nextOptionId + 1 } : DB).options =
          db.options ++
            [⟨db.nextOptionId, k.symbol, k.type, k.strike, k.expiration, m, c, today, none⟩] := rfl
      have happ := firstOpenOpt_append_one hopts
      rcases List.mem_append.mp hr with hrold | hrnew
      · rcases List.mem_append.mp hi with hold | hnew
        · obtain ⟨hcl, hfo⟩ := hcanon i hold r hrold hid
          refine ⟨hcl, ?_⟩
          unfold firstOpenId
          rw [happ r.key]
          unfold firstOpenId at hfo
          cases hfc : firstOpenOpt db r.key with
          | some rr => rw [hfc] at hfo; simpa using hfo
          | none => rw [hfc] at hfo; simp at hfo
        · simp only [sync_opt_of_absent today c m hf, List.mem_singleton] at hnew
          exfalso
          have := hwf.2.1 r hrold
          rw [hid, hnew] at this
          exact absurd this (by simp)
      · simp only [List.mem_singleton] at hrnew
        subst hrnew
        refine ⟨rfl, ?_⟩
        unfold firstOpenId
        rw [happ]
        have hnone : firstOpenOpt db (OptionRow.key ⟨db.nextOptionId, k.symbol, k.type,
            k.strike, k.expiration, m, c, today, none⟩) = none := hf
        rw [hnone]
        simp only [Option.none_or]
        simpa using hid
  | stk sym sh bp =>
    rw [stepDB_stk today db hout]
    intro i hi r hr hid
    rw [sync_long_options] at hr
    simp only [List.append_nil] at hi
    obtain ⟨hcl, hfo⟩ := hcanon i hi r hr hid
    refine ⟨hcl, ?_⟩
    unfold firstOpenId firstOpenOpt
    rw [sync_long_options]
    exact hfo
  | skip =>
    rw [stepDB_skip today db hout]
    simpa using hcanon
  | err msg =>
    rw [stepDB_err today db hout]
    simpa using hcanon

theorem loopIds_canon (today : YMD) (ps : List IBPosition) :
    ∀ (db : DB) (ids : List Nat), DB.WF db → IdsCanon db ids →
      IdsCanon (List.foldl (stepDB today) db ps) (ids ++ loopIds today db ps) := by
  induction ps with
  | nil =>
    intro db ids _ hcanon
    simpa [loopIds] using hcanon
  | cons p ps ih =>
    intro db ids hwf hcanon
    rw [List.foldl_cons]
    have hstep := stepDB_canon today db p ids hwf hcanon
    have hwf1 : DB.WF (stepDB today db p) := (stepDB_WF today db p hwf).1
    unfold loopIds
    cases hout : itemOutcome p with
    | opt k c m =>
      rw [hout] at hstep
      have := ih (stepDB today db p) _ hwf1 hstep
      simpa [List.append_assoc] using this
    | stk sym sh bp =>
      rw [hout] at hstep
      have := ih (stepDB today db p) _ hwf1 hstep
      simpa using this
    | skip =>
      rw [hout] at hstep
      have := ih (stepDB today db p) _ hwf1 hstep
      simpa using this
    | err msg =>
      rw [hout] at hstep
      have := ih (stepDB today db p) _ hwf1 hstep
      simpa using this

/-- After one reconciliation pass the open option rows carry pairwise
distinct identity keys, whatever the prior state. -/
theorem passDB_uniq (today : YMD) (ps : List IBPosition) (db : DB) (hwf : DB.WF db) :
    (openOptKeys (passDB today ps db)).Nodup := by
  have hwfL : DB.WF (List.foldl (stepDB today) db ps) := (loopDB_WF today ps db hwf).1
  have hcanon : IdsCanon (List.foldl (stepDB today) db ps) (loopIds today db ps) := by
    have := loopIds_canon today ps db [] hwf (by intro i hi; simp at hi)
    simpa using this
  have hwfF : DB.WF (passDB today ps db) := passDB_WF today ps db hwf
  unfold openOptKeys
  have hpid : (((passDB today ps db).options.filter
      (fun r => r.closed.isNone)).Pairwise (fun a b => a.id ≠ b.id)) := by
    have hnd : ((passDB today ps db).options.map OptionRow.id).Nodup := hwfF.1
    have hpw : (passDB today ps db).options.Pairwise (fun a b => a.id ≠ b.id) :=
      List.pairwise_map.mp hnd
    exact hpw.sublist (List.filter_sublist _)
  have hpk : (((passDB today ps db).options.filter
      (fun r => r.closed.isNone)).Pairwise
        (fun x y => OptionRow.key x ≠ OptionRow.key y)) := by
    refine List.Pairwise.imp_of_mem ?_ hpid
    intro x y hx hy hneq hkeq
    apply hneq
    have hxmem : x ∈ (passDB today ps db).options := List.mem_of_mem_filter hx
    have hymem : y ∈ (passDB today ps db).options := List.mem_of_mem_filter hy
    have hxopen : x.closed = none := by
      have := List.of_mem_filter hx
      simpa using this
    have hyopen : y.closed = none := by
      have := List.of_mem_filter hy
      simpa using this
    have hxmem' : x ∈ (passDB today ps db).options := hxmem
    rw [passDB_eq] at hxmem hymem
    rw [close_long_options] at hxmem hymem
    obtain ⟨hxL, hxid⟩ := close_opt_open_inv hxmem hxopen
    obtain ⟨hyL, hyid⟩ := close_opt_open_inv hymem hyopen
    obtain ⟨_, hxc⟩ := hcanon x.id hxid x hxL rfl
    obtain ⟨_, hyc⟩ := hcanon y.id hyid y hyL rfl
    rw [hkeq] at hxc
    rw [hxc] at hyc
    exact Option.some_injective _ hyc
  exact List.pairwise_map.mpr hpk

/-- C4: starting from a store whose open option rows have pairwise distinct
identity keys, any number of reconciliation passes preserves that uniqueness,
even when a snapshot repeats an identity key. -/
theorem C4_identity_key_uniqueness (today : YMD) (snaps : List (List IBPosition))
    (db : DB) (hwf : DB.WF db) (huniq : UniqOpenOpt db) :
    UniqOpenOpt (runMany today snaps db) := by
  induction snaps generalizing db with
  | nil => exact huniq
  | cons s rest ih =>
    unfold runMany
    rw [List.foldl_cons]
    exact ih (passDB today s db) (passDB_WF today s db hwf)
      (passDB_uniq today s db hwf)

/-- Witness for C4: one pass whose snapshot repeats the AAPL key. -/
theorem C4_identity_key_uniqueness_witness :
    UniqOpenOpt (runMany t0 [[posAAPL, posAAPL]] dbW) :=
  C4_identity_key_uniqueness t0 [[posAAPL, posAAPL]] dbW (by decide) (by decide)

/-! ### Backward persistence and the no-insert property of a second pass -/

theorem stepDB_nextOpt_mono (today : YMD) (db : DB) (p : IBPosition) :
    db.nextOptionId ≤ (stepDB today db p).nextOptionId := by
  cases hout : itemOutcome p with
  | opt k c m =>
    rw [stepDB_opt today db hout]
    cases hf : firstOpenOpt db k with
    | some r0 => rw [sync_opt_of_found today c m hf]; simp
    | none => rw [sync_opt_of_absent today c m hf]; simp
  | stk sym sh bp => rw [stepDB_stk today db hout, sync_long_nextOptionId]
  | skip => rw [stepDB_skip today db hout]
  | err msg => rw [stepDB_err today db hout]

theorem stepDB_nextLong_mono (today : YMD) (db : DB) (p : IBPosition) :
    db.nextLongId ≤ (stepDB today db p).nextLongId := by
  cases hout : itemOutcome p with
  | opt k c m => rw [stepDB_opt today db hout, sync_opt_nextLongId]
  | stk sym sh bp =>
    rw [stepDB_stk today db hout]
    cases hf : pickLatestOpen db sym with
    | some r0 => rw [sync_long_of_found today sh bp hf]; simp
    | none => rw [sync_long_of_absent today sh bp hf]; simp
  | skip => rw [stepDB_skip today db hout]
  | err msg => rw [stepDB_err today db hout]

theorem stepDB_opt_backward (today : YMD) (db : DB) (p : IBPosition) :
    ∀ r' ∈ (stepDB today db p).options,
      (∃ r ∈ db.options, OptSkel r r') ∨ db.nextOptionId ≤ r'.id := by
  intro r' hr'
  cases hout : itemOutcome p with
  | opt k c m =>
    rw [stepDB_opt today db hout] at hr'
    cases hf : firstOpenOpt db k with
    | some r0 =>
      rw [sync_opt_of_found today c m hf] at hr'
      obtain ⟨x, hx, rfl⟩ := List.mem_map.mp hr'
      exact Or.inl ⟨x, hx, setOptVals_skel _ _ _ x⟩
    | none =>
      rw [sync_opt_of_absent today c m hf] at hr'
      rcases List.mem_append.mp hr' with h1 | h1
      · exact Or.inl ⟨r', h1, optSkel_refl r'⟩
      · simp only [List.mem_singleton] at h1
        subst h1
        exact Or.inr (le_refl _)
  | stk sym sh bp =>
    rw [stepDB_stk today db hout, sync_long_options] at hr'
    exact Or.inl ⟨r', hr', optSkel_refl r'⟩
  | skip =>
    rw [stepDB_skip today db hout] at hr'
    exact Or.inl ⟨r', hr', optSkel_refl r'⟩
  | err msg =>
    rw [stepDB_err today db hout] at hr'
    exact Or.inl ⟨r', hr', optSkel_refl r'⟩

theorem loopDB_opt_backward (today : YMD) (ps : List IBPosition) :
    ∀ db : DB, ∀ r' ∈ (List.foldl (stepDB today) db ps).options,
      (∃ r ∈ db.options, OptSkel r r') ∨ db.nextOptionId ≤ r'.id := by
  induction ps with
  | nil => intro db r' hr'; exact Or.inl ⟨r', hr', optSkel_refl r'⟩
  | cons p ps ih =>
    intro db r' hr'
    rw [List.foldl_cons] at hr'
    rcases ih (stepDB today db p) r' hr' with ⟨r1, hr1, hskel1⟩ | hge
    · rcases stepDB_opt_backward today db p r1 hr1 with ⟨r, hr, hskel⟩ | hge1
      · exact Or.inl ⟨r, hr, optSkel_trans hskel hskel1⟩
      · exact Or.inr (by rw [hskel1.1]; exact hge1)
    · exact Or.inr (le_trans (stepDB_nextOpt_mono today db p) hge)

theorem stepDB_long_backward (today : YMD) (db : DB) (p : IBPosition) :
    ∀ r' ∈ (stepDB today db p).longPositions,
      (∃ r ∈ db.longPositions, LongSkel r r') ∨ db.nextLongId ≤ r'.id := by
  intro r' hr'
  cases hout : itemOutcome p with
  | opt k c m =>
    rw [stepDB_opt today db hout, sync_opt_longPositions] at hr'
    exact Or.inl ⟨r', hr', longSkel_refl r'⟩
  | stk sym sh bp =>
    rw [stepDB_stk today db hout] at hr'
    cases hf : pickLatestOpen db sym with
    | some r0 =>
      rw [sync_long_of_found today sh bp hf] at hr'
      obtain ⟨x, hx, rfl⟩ := List.mem_map.mp hr'
      exact Or.inl ⟨x, hx, setLongVals_skel _ _ _ x⟩
    | none =>
      rw [sync_long_of_absent today sh bp hf] at hr'
      rcases List.mem_append.mp hr' with h1 | h1
      · exact Or.inl ⟨r', h1, longSkel_refl r'⟩
      · simp only [List.mem_singleton] at h1
        subst h1
        exact Or.inr (le_refl _)
  | skip =>
    rw [stepDB_skip today db hout] at hr'
    exact Or.inl ⟨r', hr', longSkel_refl r'⟩
  | err msg =>
    rw [stepDB_err today db hout] at hr'
    exact Or.inl ⟨r', hr', longSkel_refl r'⟩

theorem loopDB_long_backward (today : YMD) (ps : List IBPosition) :
    ∀ db : DB, ∀ r' ∈ (List.foldl (stepDB today) db ps).longPositions,
      (∃ r ∈ db.longPositions, LongSkel r r') ∨ db.nextLongId ≤ r'.id := by
  induction ps with
  | nil => intro db r' hr'; exact Or.inl ⟨r', hr', longSkel_refl r'⟩
  | cons p ps ih =>
    intro db r' hr'
    rw [List.foldl_cons] at hr'
    rcases ih (stepDB today db p) r' hr' with ⟨r1, hr1, hskel1⟩ | hge
    · rcases stepDB_long_backward today db p r1 hr1 with ⟨r, hr, hskel⟩ | hge1
      · exact Or.inl ⟨r, hr, longSkel_trans hskel hskel1⟩
      · exact Or.inr (by rw [hskel1.1]; exact hge1)
    · exact Or.inr (le_trans (stepDB_nextLong_mono today db p) hge)

theorem optHyp_preserved (today : YMD) (db : DB) (p : IBPosition) (K : List OptKey)
    (h : ∀ k ∈ K, ∃ r ∈ db.options, r.closed = none ∧ r.key = k) :
    ∀ k ∈ K, ∃ r ∈ (stepDB today db p).options, r.closed = none ∧ r.key = k := by
  intro k hk
  obtain ⟨r, hr, hc, hkey⟩ := h k hk
  obtain ⟨r', hr', hskel⟩ := stepDB_opt_persist today db p r hr
  exact ⟨r', hr', by rw [hskel.2.2.2]; exact hc, by rw [hskel.2.1]; exact hkey⟩

theorem stkHyp_preserved (today : YMD) (db : DB) (p : IBPosition) (S : List String)
    (h : ∀ sym ∈ S, ∃ r ∈ db.longPositions, r.closed = none ∧ r.symbol = sym) :
    ∀ sym ∈ S, ∃ r ∈ (stepDB today db p).longPositions,
      r.closed = none ∧ r.symbol = sym := by
  intro sym hs
  obtain ⟨r, hr, hc, hsym⟩ := h sym hs
  obtain ⟨r', hr', hskel⟩ := stepDB_long_persist today db p r hr
  exact ⟨r', hr', by rw [hskel.2.2.2]; exact hc, by rw [hskel.2.1]; exact hsym⟩

/-- A loop whose every option key and stock symbol already has an open match
performs updates only: table sizes and fresh-id counters do not change. -/
theorem loop_no_insert (today : YMD) (ps : List IBPosition) :
    ∀ db : DB,
      (∀ k ∈ okKeys ps, ∃ r ∈ db.options, r.closed = none ∧ r.key = k) →
      (∀ sym ∈ stkSyms ps, ∃ r ∈ db.longPositions, r.closed = none ∧ r.symbol = sym) →
      (List.foldl (stepDB today) db ps).options.length = db.options.length ∧
      (List.foldl (stepDB today) db ps).nextOptionId = db.nextOptionId ∧
      (List.foldl (stepDB today) db ps).longPositions.length = db.longPositions.length ∧
      (List.foldl (stepDB today) db ps).nextLongId = db.nextLongId := by
  induction ps with
  | nil => intro db _ _; exact ⟨rfl, rfl, rfl, rfl⟩
  | cons p ps ih =>
    intro db hK hS
    rw [List.foldl_cons]
    have hKtail : ∀ k ∈ okKeys ps, ∃ r ∈ db.options, r.closed = none ∧ r.key = k := by
      intro k hk
      refine hK k ?_
      rw [okKeys_cons]
      exact List.mem_append_right _ hk
    have hStail : ∀ sym ∈ stkSyms ps,
        ∃ r ∈ db.longPositions, r.closed = none ∧ r.symbol = sym := by
      intro sym hs
      refine hS sym ?_
      rw [stkSyms_cons]
      exact List.mem_append_right _ hs
    have hstep : (stepDB today db p).options.length = db.options.length ∧
        (stepDB today db p).nextOptionId = db.nextOptionId ∧
        (stepDB today db p).longPositions.length = db.longPositions.length ∧
        (stepDB today db p).nextLongId = db.nextLongId := by
      cases hout : itemOutcome p with
      | opt k c m =>
        have hkmem : k ∈ okKeys (p :: ps) := by
          rw [okKeys_cons, hout]
          exact List.mem_append_left _ (List.mem_singleton_self _)
        obtain ⟨r, hr, hc, hkey⟩ := hK k hkmem
        cases hf : firstOpenOpt db k with
        | none =>
          exact absurd ⟨hkey, hc⟩ (firstOpenOpt_none.mp hf r hr)
        | some r0 =>
          rw [stepDB_opt today db hout, sync_opt_of_found today c m hf]
          exact ⟨by simp, by simp, by simp, by simp⟩
      | stk sym sh bp =>
        have hsmem : sym ∈ stkSyms (p :: ps) := by
          rw [stkSyms_cons, hout]
          exact List.mem_append_left _ (List.mem_singleton_self _)
        obtain ⟨r, hr, hc, hsym⟩ := hS sym hsmem
        cases hf : pickLatestOpen db sym with
        | none =>
          exact absurd ⟨hsym, hc⟩ (pickLatestOpen_none.mp hf r hr)
        | some r0 =>
          rw [stepDB_stk today db hout, sync_long_of_found today sh bp hf]
          exact ⟨by simp, by simp, by simp, by simp⟩
      | skip => rw [stepDB_skip today db hout]; exact ⟨rfl, rfl, rfl, rfl⟩
      | err msg => rw [stepDB_err today db hout]; exact ⟨rfl, rfl, rfl, rfl⟩
    obtain ⟨h1, h2, h3, h4⟩ := ih (stepDB today db p)
      (optHyp_preserved today db p _ hKtail) (stkHyp_preserved today db p _ hStail)
    exact ⟨h1.trans hstep.1, h2.trans hstep.2.1, h3.trans hstep.2.2.1,
      h4.trans hstep.2.2.2⟩

/-- Two open option rows with the same identity key in a store whose open
keys are pairwise distinct are the same row. -/
theorem uniq_open_eq {db : DB} (h : (openOptKeys db).Nodup) {r1 r2 : OptionRow}
    (h1 : r1 ∈ db.options) (h2 : r2 ∈ db.options) (o1 : r1.closed = none)
    (o2 : r2.closed = none) (hk : r1.key = r2.key) : r1 = r2 := by
  have m1 : r1 ∈ db.options.filter (fun r => r.closed.isNone) :=
    List.mem_filter_of_mem h1 (by simp [o1])
  have m2 : r2 ∈ db.options.filter (fun r => r.closed.isNone) :=
    List.mem_filter_of_mem h2 (by simp [o2])
  exact List.inj_on_of_nodup_map h m1 m2 hk

theorem mem_openOptIds {db : DB} {i : Nat} :
    i ∈ openOptIds db ↔ ∃ r, r ∈ db.options ∧ r.closed = none ∧ r.id = i := by
  unfold openOptIds
  simp only [List.mem_map, List.mem_filter, Option.isNone_iff_eq_none]
  constructor
  · rintro ⟨r, ⟨hr, hc⟩, hk⟩
    exact ⟨r, hr, hc, hk⟩
  · rintro ⟨r, hr, hc, hk⟩
    exact ⟨r, ⟨hr, hc⟩, hk⟩

theorem mem_openLongIds {db : DB} {i : Nat} :
    i ∈ openLongIds db ↔ ∃ r, r ∈ db.longPositions ∧ r.closed = none ∧ r.id = i := by
  unfold openLongIds
  simp only [List.mem_map, List.mem_filter, Option.isNone_iff_eq_none]
  constructor
  · rintro ⟨r, ⟨hr, hc⟩, hk⟩
    exact ⟨r, hr, hc, hk⟩
  · rintro ⟨r, hr, hc, hk⟩
    exact ⟨r, ⟨hr, hc⟩, hk⟩

/-- Idempotence of the pass at the store level: a second pass over the same
snapshot inserts nothing and leaves the set of open rows unchanged. -/
theorem passDB_idem (today : YMD) (ps : List IBPosition) (db : DB) (hwf : DB.WF db) :
    (passDB today ps (passDB today ps db)).options.length =
      (passDB today ps db).options.length ∧
    (passDB today ps (passDB today ps db)).nextOptionId =
      (passDB today ps db).nextOptionId ∧
    (passDB today ps (passDB today ps db)).longPositions.length =
      (passDB today ps db).longPositions.length ∧
    (passDB today ps (passDB today ps db)).nextLongId =
      (passDB today ps db).nextLongId ∧
    (∀ i, i ∈ openOptIds (passDB today ps (passDB today ps db)) ↔
      i ∈ openOptIds (passDB today ps db)) ∧
    (∀ k, k ∈ openOptKeys (passDB today ps (passDB today ps db)) ↔
      k ∈ openOptKeys (passDB today ps db)) ∧
    (∀ i, i ∈ openLongIds (passDB today ps (passDB today ps db)) ↔
      i ∈ openLongIds (passDB today ps db)) ∧
    (∀ sym, sym ∈ openShareSymbols (passDB today ps (passDB today ps db)) ↔
      sym ∈ openShareSymbols (passDB today ps db)) := by
  have hwf1 : DB.WF (passDB today ps db) := passDB_WF today ps db hwf
  have huniq1 : (openOptKeys (passDB today ps db)).Nodup := passDB_uniq today ps db hwf
  obtain ⟨hopen1, hshare1⟩ := passDB_open today ps db hwf
  obtain ⟨hopen2, hshare2⟩ := passDB_open today ps (passDB today ps db) hwf1
  have hK : ∀ k ∈ okKeys ps,
      ∃ r ∈ (passDB today ps db).options, r.closed = none ∧ r.key = k := by
    intro k hk
    obtain ⟨r, hr, hc, hkey⟩ := mem_openOptKeys.mp ((hopen1 k).mpr hk)
    exact ⟨r, hr, hc, hkey⟩
  have hS : ∀ sym ∈ stkSyms ps,
      ∃ r ∈ (passDB today ps db).longPositions, r.closed = none ∧ r.symbol = sym := by
    intro sym hs
    obtain ⟨r, hr, hc, hsym⟩ := mem_openShareSymbols.mp ((hshare1 sym).mpr hs)
    exact ⟨r, hr, hc, hsym⟩
  obtain ⟨hlen, hnext, hlenL, hnextL⟩ := loop_no_insert today ps (passDB today ps db) hK hS
  have hwfL : DB.WF (List.foldl (stepDB today) (passDB today ps db) ps) :=
    (loopDB_WF today ps (passDB today ps db) hwf1).1
  refine ⟨?_, ?_, ?_, ?_, ?_, ?_, ?_, ?_⟩
  · conv_lhs => rw [passDB_eq]
    rw [close_long_options, close_opt_options, List.length_map]
    exact hlen
  · conv_lhs => rw [passDB_eq]
    rw [close_long_nextOptionId, close_opt_nextOptionId]
    exact hnext
  · conv_lhs => rw [passDB_eq]
    rw [close_long_longPositions, List.length_map, close_opt_longPositions]
    exact hlenL
  · conv_lhs => rw [passDB_eq]
    rw [close_long_nextLongId, close_opt_nextLongId]
    exact hnextL
  · intro i
    constructor
    · intro hi
      obtain ⟨r, hr, hc, hid⟩ := mem_openOptIds.mp hi
      rw [passDB_eq, close_long_options] at hr
      obtain ⟨hrL, _⟩ := close_opt_open_inv hr hc
      rcases loopDB_opt_backward today ps (passDB today ps db) r hrL with
        ⟨r0, hr0, hskel⟩ | hge
      · refine mem_openOptIds.mpr ⟨r0, hr0, ?_, ?_⟩
        · rw [← hskel.2.2.2]; exact hc
        · rw [← hskel.1]; exact hid
      · exfalso
        have hb := hwfL.2.1 r hrL
        rw [hnext] at hb
        exact absurd (lt_of_le_of_lt hge hb) (lt_irrefl _)
    · intro hi
      obtain ⟨r, hr, hc, hid⟩ := mem_openOptIds.mp hi
      have hkmem : r.key ∈ okKeys ps :=
        (hopen1 r.key).mp (mem_openOptKeys.mpr ⟨r, hr, hc, rfl⟩)
      obtain ⟨r', hr'L, hc', hkey', hids'⟩ :=
        loopIds_complete today ps (passDB today ps db) r.key hkmem
      rcases loopDB_opt_backward today ps (passDB today ps db) r' hr'L with
        ⟨r0, hr0, hskel⟩ | hge
      · have hreq : r0 = r := by
          refine uniq_open_eq huniq1 hr0 hr ?_ hc ?_
          · rw [← hskel.2.2.2]; exact hc'
          · rw [← hskel.2.1]; exact hkey'
        obtain ⟨r1, hr1, hskel1⟩ := loopDB_opt_persist today ps (passDB today ps db) r hr
        have hid1 : r1.id ∈ loopIds today (passDB today ps db) ps := by
          rw [hskel1.1, ← hreq, ← hskel.1]
          exact hids'
        refine mem_openOptIds.mpr ⟨r1, ?_, ?_, ?_⟩
        · rw [passDB_eq, close_long_options]
          exact close_opt_open_kept hr1 hid1
        · rw [hskel1.2.2.2]; exact hc
        · rw [hskel1.1]; exact hid
      · exfalso
        have hb := hwfL.2.1 r' hr'L
        rw [hnext] at hb
        exact absurd (lt_of_le_of_lt hge hb) (lt_irrefl _)
  · intro k
    rw [hopen2 k, hopen1 k]
  · intro i
    constructor
    · intro hi
      obtain ⟨r, hr, hc, hid⟩ := mem_openLongIds.mp hi
      rw [passDB_eq, close_long_longPositions, close_opt_longPositions] at hr
      obtain ⟨x, hx, rfl⟩ := List.mem_map.mp hr
      by_cases hcond : x.closed = none ∧ x.symbol ∉ stkSyms ps
      · exfalso
        rw [closeLongRow_dropped hcond.1 hcond.2] at hc
        simp at hc
      · rw [closeLongRow_self hcond] at hc hid
        rcases loopDB_long_backward today ps (passDB today ps db) x hx with
          ⟨r0, hr0, hskel⟩ | hge
        · refine mem_openLongIds.mpr ⟨r0, hr0, ?_, ?_⟩
          · rw [← hskel.2.2.2]; exact hc
          · rw [← hskel.1]; exact hid
        · exfalso
          have hb := hwfL.2.2.2 x hx
          rw [hnextL] at hb
          exact absurd (lt_of_le_of_lt hge hb) (lt_irrefl _)
    · intro hi
      obtain ⟨r, hr, hc, hid⟩ := mem_openLongIds.mp hi
      have hsmem : r.symbol ∈ stkSyms ps :=
        (hshare1 r.symbol).mp (mem_openShareSymbols.mpr ⟨r, hr, hc, rfl⟩)
      obtain ⟨r1, hr1, hskel1⟩ := loopDB_long_persist today ps (passDB today ps db) r hr
      have hr1' : r1 ∈ (close_missing_options today
          (List.foldl (stepDB today) (passDB today ps db) ps)
          (loopIds today (passDB today ps db) ps)).1.longPositions := by
        rw [close_opt_longPositions]
        exact hr1
      refine mem_openLongIds.mpr ⟨r1, ?_, ?_, ?_⟩
      · rw [passDB_eq]
        exact @close_long_open_kept today _ _ _ hr1' (by rw [hskel1.2.1]; exact hsmem)
      · rw [hskel1.2.2.2]; exact hc
      · rw [hskel1.1]; exact hid
  · intro sym
    rw [hshare2 sym, hshare1 sym]

/-! ### Shape of a successful option derivation -/

theorem itemOutcome_opt_eq {p : IBPosition} {d : YMD} (h1 : p.secType = "OPT")
    (h2 : parseExpiration p.expiration = some d) (h3 : p.multiplier.getD 100 ≠ 0) :
    itemOutcome p =
      .opt ⟨p.symbol, (if p.right = "C" then "Call" else "Put"), p.strike, d⟩
        p.position.natAbs (p.avgCost / ((p.multiplier.getD 100 : Int) : Rat)) := by
  unfold itemOutcome
  rw [if_pos h1, h2]
  simp [h3]

theorem itemOutcome_opt_inv {p : IBPosition} {k : OptKey} {c : Nat} {m : Rat}
    (h : itemOutcome p = .opt k c m) :
    p.secType = "OPT" ∧
    parseExpiration p.expiration = some k.expiration ∧
    p.multiplier.getD 100 ≠ 0 ∧
    k = ⟨p.symbol, (if p.right = "C" then "Call" else "Put"), p.strike, k.expiration⟩ ∧
    c = p.position.natAbs ∧
    m = p.avgCost / ((p.multiplier.getD 100 : Int) : Rat) := by
  have hopt : p.secType = "OPT" := secType_of_opt h
  unfold itemOutcome at h
  rw [if_pos hopt] at h
  cases hp : parseExpiration p.expiration with
  | none => rw [hp] at h; simp at h
  | some e =>
    rw [hp] at h
    by_cases hm : p.multiplier.getD 100 = 0
    · simp [hm] at h
    · simp only [hm, if_false, ite_false, if_neg hm] at h
      have := h
      simp only [ItemOutcome.opt.injEq] at this
      obtain ⟨hk, hc, hmm⟩ := this
      subst hk
      exact ⟨hopt, by simp [hp], hm, rfl, hc.symm, hmm.symm⟩

/-- C5 counterexample: the claim says an item whose right code starts with
the letter C is stored as a Call; the code compares the whole code with the
single letter C, so the right code CALL is stored as a Put. -/
theorem C5_option_type_counterexample :
    posCALL.right.data.head? = some 'C' ∧
    outcomeType (itemOutcome posCALL) = some "Put" := by
  constructor
  · rfl
  · decide

/-- C5 amended: the stored option type is Call if and only if the item's
right code is exactly the string C, and Put otherwise. -/
theorem C5_option_type_amended (p : IBPosition) (k : OptKey) (c : Nat) (m : Rat)
    (h : itemOutcome p = .opt k c m) :
    (k.type = "Call" ↔ p.right = "C") ∧ (k.type = "Put" ↔ p.right ≠ "C") := by
  obtain ⟨-, -, -, hk, -, -⟩ := itemOutcome_opt_inv h
  have htype : k.type = (if p.right = "C" then "Call" else "Put") := by rw [hk]
  by_cases hr : p.right = "C" <;> simp [htype, hr]

/-- Witness for the amended C5 at the AAPL put item. -/
theorem C5_option_type_amended_witness :
    ((⟨"AAPL", "Put", 150, ⟨2024, 6, 21⟩⟩ : OptKey).type = "Call" ↔ posAAPL.right = "C") ∧
    ((⟨"AAPL", "Put", 150, ⟨2024, 6, 21⟩⟩ : OptKey).type = "Put" ↔ posAAPL.right ≠ "C") :=
  C5_option_type_amended posAAPL ⟨"AAPL", "Put", 150, ⟨2024, 6, 21⟩⟩ 3 (375/100) (by rfl)

/-- C6: the stored contract count is the absolute value of the item's signed
quantity and the stored premium per contract is the cost basis divided by the
contract multiplier (default 100 when unspecified); in the spec's concrete
scenario the short 3 AAPL put at cost basis 375 updates the existing open row
to 3 contracts at premium 3.75 with no insert and no closure of that row. -/
theorem C6_contracts_premium :
    (∀ (p : IBPosition) (d : YMD), p.secType = "OPT" →
      parseExpiration p.expiration = some d → p.multiplier.getD 100 ≠ 0 →
      itemOutcome p =
        .opt ⟨p.symbol, (if p.right = "C" then "Call" else "Put"), p.strike, d⟩
          p.position.natAbs (p.avgCost / ((p.multiplier.getD 100 : Int) : Rat))) ∧
    ((sync_positions (okEnv [posAAPL]) dbW t0 "T").db.options =
      [{ rowAAPL with contracts := 3, premium := 375/100 }] ∧
     (sync_positions (okEnv [posAAPL]) dbW t0 "T").result.optionsSynced = 1 ∧
     (sync_positions (okEnv [posAAPL]) dbW t0 "T").result.optionsClosed = 0) := by
  refine ⟨?_, ?_, ?_, ?_⟩
  · intro p d h1 h2 h3
    exact itemOutcome_opt_eq h1 h2 h3
  · rfl
  · rfl
  · rfl

/-- Witness for C6: the general derivation applied at the AAPL item. -/
theorem C6_contracts_premium_witness :
    itemOutcome posAAPL =
      .opt ⟨"AAPL", "Put", 150, ⟨2024, 6, 21⟩⟩ 3 ((375 : Rat) / ((100 : Int) : Rat)) := by
  have h := C6_contracts_premium.1 posAAPL ⟨2024, 6, 21⟩ rfl (by rfl) (by decide)
  exact h

/-! ### One bad item: homomorphisms of the loop over list splitting -/

theorem errsOf_append (xs ys : List IBPosition) :
    errsOf (xs ++ ys) = errsOf xs ++ errsOf ys := by
  unfold errsOf
  rw [List.filterMap_append]

theorem stkSyms_append (xs ys : List IBPosition) :
    stkSyms (xs ++ ys) = stkSyms xs ++ stkSyms ys := by
  unfold stkSyms
  rw [List.filterMap_append]

theorem okKeys_append (xs ys : List IBPosition) :
    okKeys (xs ++ ys) = okKeys xs ++ okKeys ys := by
  unfold okKeys
  rw [List.filterMap_append]

theorem errsOf_nil_of_ok (l : List IBPosition)
    (h : ∀ q ∈ l, isErrOutcome (itemOutcome q) = false) : errsOf l = [] := by
  induction l with
  | nil => rfl
  | cons q l ih =>
    rw [errsOf_cons]
    have hq := h q (List.mem_cons_self q l)
    cases hout : itemOutcome q with
    | err m => rw [hout] at hq; simp [isErrOutcome] at hq
    | opt k c m => exact ih (fun x hx => h x (List.mem_cons_of_mem q hx))
    | stk sym sh bp => exact ih (fun x hx => h x (List.mem_cons_of_mem q hx))
    | skip => exact ih (fun x hx => h x (List.mem_cons_of_mem q hx))

theorem errsOf_cons_err {p : IBPosition} {e : String} (h : itemOutcome p = .err e)
    (l : List IBPosition) : errsOf (p :: l) = e :: errsOf l := by
  rw [errsOf_cons, h]
  rfl

theorem loopIds_cons (today : YMD) (db : DB) (p : IBPosition) (ps : List IBPosition) :
    loopIds today db (p :: ps) =
      (match itemOutcome p with
       | .opt k c m => [(sync_option_position today db k c m).2]
       | _ => []) ++ loopIds today (stepDB today db p) ps := rfl

theorem loopIds_append (today : YMD) (xs ys : List IBPosition) :
    ∀ db : DB, loopIds today db (xs ++ ys) =
      loopIds today db xs ++ loopIds today (List.foldl (stepDB today) db xs) ys := by
  induction xs with
  | nil => intro db; simp [loopIds]
  | cons x xs ih =>
    intro db
    rw [List.cons_append, loopIds_cons, loopIds_cons, ih (stepDB today db x),
      List.foldl_cons, List.append_assoc]

theorem skips_do_not_touch {p : IBPosition} {e : String} (today : YMD) (db : DB)
    (h : itemOutcome p = .err e) (ys : List IBPosition) :
    loopIds today db (p :: ys) = loopIds today db ys ∧
      List.foldl (stepDB today) db (p :: ys) = List.foldl (stepDB today) db ys := by
  constructor
  · rw [loopIds_cons, h, stepDB_err today db h]
    simp
  · rw [List.foldl_cons, stepDB_err today db h]

/-- C7: a snapshot in which exactly one item fails (for instance on a
malformed expiration string) yields the same store effect, counts and success
flag as the snapshot without that item, and its error list is exactly one
string wrapping the bad item's symbol. -/
theorem C7_partial_failure_isolation (today : YMD) (now : String) (db : DB)
    (l₁ l₂ : List IBPosition) (p : IBPosition) (e : String)
    (herr : itemOutcome p = .err e)
    (hok : ∀ q ∈ l₁ ++ l₂, isErrOutcome (itemOutcome q) = false) :
    (sync_positions (okEnv (l₁ ++ p :: l₂)) db today now).result.errors = [e] ∧
    (∃ exc, e = itemErrorString p.symbol exc) ∧
    (sync_positions (okEnv (l₁ ++ p :: l₂)) db today now).db =
      (sync_positions (okEnv (l₁ ++ l₂)) db today now).db ∧
    (sync_positions (okEnv (l₁ ++ p :: l₂)) db today now).result.success = true ∧
    (sync_positions (okEnv (l₁ ++ p :: l₂)) db today now).result.optionsSynced =
      (sync_positions (okEnv (l₁ ++ l₂)) db today now).result.optionsSynced ∧
    (sync_positions (okEnv (l₁ ++ p :: l₂)) db today now).result.positionsSynced =
      (sync_positions (okEnv (l₁ ++ l₂)) db today now).result.positionsSynced ∧
    (sync_positions (okEnv (l₁ ++ p :: l₂)) db today now).result.optionsClosed =
      (sync_positions (okEnv (l₁ ++ l₂)) db today now).result.optionsClosed ∧
    (sync_positions (okEnv (l₁ ++ p :: l₂)) db today now).result.positionsClosed =
      (sync_positions (okEnv (l₁ ++ l₂)) db today now).result.positionsClosed := by
  have hok1 : ∀ q ∈ l₁, isErrOutcome (itemOutcome q) = false :=
    fun q hq => hok q (List.mem_append_left _ hq)
  have hok2 : ∀ q ∈ l₂, isErrOutcome (itemOutcome q) = false :=
    fun q hq => hok q (List.mem_append_right _ hq)
  have herrs : errsOf (l₁ ++ p :: l₂) = [e] := by
    rw [errsOf_append, errsOf_nil_of_ok l₁ hok1, errsOf_cons_err herr,
        errsOf_nil_of_ok l₂ hok2]
    rfl
  have herrs2 : errsOf (l₁ ++ l₂) = [] := by
    rw [errsOf_append, errsOf_nil_of_ok l₁ hok1, errsOf_nil_of_ok l₂ hok2]
    rfl
  have hfold : List.foldl (stepDB today) db (l₁ ++ p :: l₂) =
      List.foldl (stepDB today) db (l₁ ++ l₂) := by
    rw [List.foldl_append, List.foldl_append,
      (skips_do_not_touch today (List.foldl (stepDB today) db l₁) herr l₂).2]
  have hids : loopIds today db (l₁ ++ p :: l₂) = loopIds today db (l₁ ++ l₂) := by
    rw [loopIds_append, loopIds_append,
      (skips_do_not_touch today (List.foldl (stepDB today) db l₁) herr l₂).1]
  have hsyms : stkSyms (l₁ ++ p :: l₂) = stkSyms (l₁ ++ l₂) := by
    rw [stkSyms_append, stkSyms_append, stkSyms_cons, herr]
    rfl
  have hkeys : okKeys (l₁ ++ p :: l₂) = okKeys (l₁ ++ l₂) := by
    rw [okKeys_append, okKeys_append, okKeys_cons, herr]
    rfl
  rw [sync_positions_ok, sync_positions_ok]
  dsimp only
  rw [passDB_eq, passDB_eq, hfold, hids, hsyms, hkeys, herrs]
  exact ⟨rfl, err_shape herr, rfl, rfl, rfl, rfl, rfl, rfl⟩

/-- Witness for C7: a two-item snapshot whose second item has a malformed
expiration string. -/
theorem C7_partial_failure_isolation_witness :
    (sync_positions (okEnv [posAAPL, posBAD]) dbW t0 "T").result.errors =
      [itemErrorString "BAD" "invalid expiration date"] ∧
    (sync_positions (okEnv [posAAPL, posBAD]) dbW t0 "T").db =
      (sync_positions (okEnv [posAAPL]) dbW t0 "T").db ∧
    (sync_positions (okEnv [posAAPL, posBAD]) dbW t0 "T").result.success = true := by
  obtain ⟨h1, _, h3, h4, _⟩ := C7_partial_failure_isolation t0 "T" dbW [posAAPL] []
    posBAD (itemErrorString "BAD" "invalid expiration date") (by decide) (by decide)
  exact ⟨h1, h3, h4⟩

/-- C8 counterexample: with the session live and the fetch succeeding, an
injected store fault in the closure step leaves success at false, where the
claim asserts the run still completes with success=true. -/
theorem C8_store_fault_counterexample :
    (sync_positions ⟨true, true, .ok [], some "disk I/O error", none⟩ dbW t0
      "T").result.success = false := rfl

/-- C8 amended: a store fault during either closure statement escapes the
reconciliation block to the outer handler: it is surfaced as a trailing
"Sync failed" error string in the error list rather than raised to the
caller, the remaining closure counts stay 0, but the run returns
success=false. -/
theorem C8_store_fault_amended (today : YMD) (now : String) (db : DB)
    (ps : List IBPosition) (m : String) :
    ((sync_positions ⟨true, true, .ok ps, some m, none⟩ db today now).result.success =
        false ∧
      (sync_positions ⟨true, true, .ok ps, some m, none⟩ db today now).result.errors =
        errsOf ps ++ ["Sync failed: " ++ m] ∧
      (sync_positions ⟨true, true, .ok ps, some m, none⟩ db today now).result.optionsClosed =
        0 ∧
      (sync_positions ⟨true, true, .ok ps, some m, none⟩ db today now).result.positionsClosed =
        0 ∧
      (sync_positions ⟨true, true, .ok ps, some m, none⟩ db today now).db =
        List.foldl (stepDB today) db ps) ∧
    ((sync_positions ⟨true, true, .ok ps, none, some m⟩ db today now).result.success =
        false ∧
      (sync_positions ⟨true, true, .ok ps, none, some m⟩ db today now).result.errors =
        errsOf ps ++ ["Sync failed: " ++ m] ∧
      (sync_positions ⟨true, true, .ok ps, none, some m⟩ db today now).result.positionsClosed =
        0 ∧
      (sync_positions ⟨true, true, .ok ps, none, some m⟩ db today now).db =
        (close_missing_options today (List.foldl (stepDB today) db ps)
          (loopIds today db ps)).1) := by
  constructor
  · unfold sync_positions
    rw [if_neg (by simp)]
    simp [runLoop_eq]
  · unfold sync_positions
    rw [if_neg (by simp)]
    simp [runLoop_eq]

/-- C9: while no broker session exists and the connection attempt fails, the
run reports the single connection error with success=false and the store is
untouched. -/
theorem C9_connect_failure (env : SyncEnv) (db : DB) (today : YMD) (now : String)
    (h1 : env.isConnected = false) (h2 : env.connectOk = false) :
    (sync_positions env db today now).result.success = false ∧
    (sync_positions env db today now).result.errors = ["Failed to connect to IBKR"] ∧
    (sync_positions env db today now).db = db := by
  unfold sync_positions
  rw [if_pos ⟨h1, h2⟩]
  exact ⟨rfl, rfl, rfl⟩

/-- Witness for C9 at a concrete store. -/
theorem C9_connect_failure_witness :
    (sync_positions ⟨false, false, .ok [], none, none⟩ dbW t0 "T").result.success = false ∧
    (sync_positions ⟨false, false, .ok [], none, none⟩ dbW t0 "T").result.errors =
      ["Failed to connect to IBKR"] ∧
    (sync_positions ⟨false, false, .ok [], none, none⟩ dbW t0 "T").db = dbW :=
  C9_connect_failure ⟨false, false, .ok [], none, none⟩ dbW t0 "T" rfl rfl

/-- C10: the connect-failure early return leaves last_sync and
last_sync_result untouched, so a status query still reports the previous run;
every other path, fetch failure and passes with item errors included,
replaces both fields with the new run. -/
theorem C10_last_sync_frame (svc : SvcState) (env : SyncEnv) (db db2 : DB)
    (today : YMD) (now : String) (c : Bool) :
    ((env.isConnected = false ∧ env.connectOk = false) →
      (service_sync svc env db today now).1 = svc ∧
      get_status (service_sync svc env db today now).1 c db2 = get_status svc c db2) ∧
    ((env.isConnected = true ∨ env.connectOk = true) →
      (service_sync svc env db today now).1.lastSync = some now ∧
      (service_sync svc env db today now).1.lastSyncResult =
        some (sync_positions env db today now).result ∧
      (get_status (service_sync svc env db today now).1 c db2).lastSync = some now ∧
      (get_status (service_sync svc env db today now).1 c db2).lastSyncResult =
        some (sync_positions env db today now).result) := by
  constructor
  · rintro ⟨h1, h2⟩
    unfold service_sync
    rw [if_pos ⟨h1, h2⟩]
    exact ⟨rfl, rfl⟩
  · intro h
    have hneg : ¬(env.isConnected = false ∧ env.connectOk = false) := by
      rcases h with h | h <;> simp [h]
    unfold service_sync
    rw [if_neg hneg]
    exact ⟨rfl, rfl, rfl, rfl⟩

/-- Witness for C10: a failed connection keeps the previous run visible; a
failed fetch replaces it. -/
theorem C10_last_sync_frame_witness :
    (service_sync ⟨some "S", some emptyResult⟩ ⟨false, false, .ok [], none, none⟩ dbW t0
      "T").1 = ⟨some "S", some emptyResult⟩ ∧
    (service_sync ⟨some "S", some emptyResult⟩ ⟨true, true, .error "boom", none, none⟩ dbW
      t0 "T").1.lastSync = some "T" ∧
    (service_sync ⟨some "S", some emptyResult⟩ ⟨true, true, .error "boom", none, none⟩ dbW
      t0 "T").1.lastSyncResult =
      some (sync_positions ⟨true, true, .error "boom", none, none⟩ dbW t0 "T").result := by
  refine ⟨?_, ?_, ?_⟩
  · exact ((C10_last_sync_frame ⟨some "S", some emptyResult⟩
      ⟨false, false, .ok [], none, none⟩ dbW dbW t0 "T" true).1 ⟨rfl, rfl⟩).1
  · exact ((C10_last_sync_frame ⟨some "S", some emptyResult⟩
      ⟨true, true, .error "boom", none, none⟩ dbW dbW t0 "T" true).2 (Or.inl rfl)).1
  · exact ((C10_last_sync_frame ⟨some "S", some emptyResult⟩
      ⟨true, true, .error "boom", none, none⟩ dbW dbW t0 "T" true).2 (Or.inl rfl)).2.1

/-! ### Last written values per key and per symbol -/

theorem getLast_of_cons {α : Type} {l : List α} {v : α} (x : α)
    (h : l.getLast? = some v) : (x :: l).getLast? = some v := by
  cases l with
  | nil => simp at h
  | cons y ys =>
    rw [List.getLast?_cons_cons]
    exact h

theorem lastOpt_cons_of_some {ps : List IBPosition} {k : OptKey} {v : Nat × Rat}
    (h : lastOpt ps k = some v) (p : IBPosition) : lastOpt (p :: ps) k = some v := by
  unfold lastOpt at h ⊢
  rw [List.filterMap_cons]
  cases hout : itemOutcome p with
  | opt k' c m =>
    simp only [hout]
    by_cases hk : k' = k
    · rw [if_pos hk]
      exact getLast_of_cons _ h
    · rw [if_neg hk]
      exact h
  | stk sym sh bp => simp only [hout]; exact h
  | skip => simp only [hout]; exact h
  | err m => simp only [hout]; exact h

theorem okKeys_iff_exists {ps : List IBPosition} {k : OptKey} :
    k ∈ okKeys ps ↔ ∃ q ∈ ps, ∃ c m, itemOutcome q = .opt k c m := by
  unfold okKeys
  rw [List.mem_filterMap]
  constructor
  · rintro ⟨q, hq, hout⟩
    cases h : itemOutcome q with
    | opt k' c m =>
      rw [h] at hout
      simp at hout
      subst hout
      exact ⟨q, hq, c, m, h⟩
    | stk sym sh bp => rw [h] at hout; simp at hout
    | skip => rw [h] at hout; simp at hout
    | err m => rw [h] at hout; simp at hout
  · rintro ⟨q, hq, c, m, hout⟩
    exact ⟨q, hq, by rw [hout]⟩

theorem stkSyms_iff_exists {ps : List IBPosition} {sym : String} :
    sym ∈ stkSyms ps ↔ ∃ q ∈ ps, ∃ sh bp, itemOutcome q = .stk sym sh bp := by
  unfold stkSyms
  rw [List.mem_filterMap]
  constructor
  · rintro ⟨q, hq, hout⟩
    cases h : itemOutcome q with
    | stk sym' sh bp =>
      rw [h] at hout
      simp at hout
      subst hout
      exact ⟨q, hq, sh, bp, h⟩
    | opt k c m => rw [h] at hout; simp at hout
    | skip => rw [h] at hout; simp at hout
    | err m => rw [h] at hout; simp at hout
  · rintro ⟨q, hq, sh, bp, hout⟩
    exact ⟨q, hq, by rw [hout]⟩

theorem lastOpt_eq_none {ps : List IBPosition} {k : OptKey}
    (h : ∀ q ∈ ps, ∀ c m, itemOutcome q ≠ .opt k c m) : lastOpt ps k = none := by
  unfold lastOpt
  rw [List.getLast?_eq_none_iff]
  rw [List.filterMap_eq_nil_iff]
  intro q hq
  cases hout : itemOutcome q with
  | opt k' c m =>
    have : k' ≠ k := fun hk => h q hq c m (by rw [hout, hk])
    simp [this]
  | stk sym sh bp => rfl
  | skip => rfl
  | err m => rfl

theorem lastStk_eq_none {ps : List IBPosition} {sym : String}
    (h : ∀ q ∈ ps, ∀ sh bp, itemOutcome q ≠ .stk sym sh bp) : lastStk ps sym = none := by
  unfold lastStk
  rw [List.getLast?_eq_none_iff]
  rw [List.filterMap_eq_nil_iff]
  intro q hq
  cases hout : itemOutcome q with
  | stk sym' sh bp =>
    have : sym' ≠ sym := fun hk => h q hq sh bp (by rw [hout, hk])
    simp [this]
  | opt k c m => rfl
  | skip => rfl
  | err m => rfl

theorem lastOpt_cons_self {p : IBPosition} {ps : List IBPosition} {k : OptKey}
    {c : Nat} {m : Rat} (hout : itemOutcome p = .opt k c m)
    (hnone : lastOpt ps k = none) : lastOpt (p :: ps) k = some (c, m) := by
  unfold lastOpt at hnone ⊢
  rw [List.filterMap_cons]
  simp only [hout]
  rw [List.getLast?_eq_none_iff] at hnone
  rw [if_true, hnone]
  rfl

theorem lastStk_cons_self {p : IBPosition} {ps : List IBPosition} {sym : String}
    {sh : Int} {bp : Rat} (hout : itemOutcome p = .stk sym sh bp)
    (hnone : lastStk ps sym = none) : lastStk (p :: ps) sym = some (sh, bp) := by
  unfold lastStk at hnone ⊢
  rw [List.filterMap_cons]
  simp only [hout]
  rw [List.getLast?_eq_none_iff] at hnone
  rw [if_true, hnone]
  rfl

theorem lastStk_cons_of_some {ps : List IBPosition} {sym : String} {v : Int × Rat}
    (h : lastStk ps sym = some v) (p : IBPosition) : lastStk (p :: ps) sym = some v := by
  unfold lastStk at h ⊢
  rw [List.filterMap_cons]
  cases hout : itemOutcome p with
  | stk sym' sh bp =>
    simp only [hout]
    by_cases hk : sym' = sym
    · rw [if_pos hk]
      exact getLast_of_cons _ h
    · rw [if_neg hk]
      exact h
  | opt k c m => simp only [hout]; exact h
  | skip => simp only [hout]; exact h
  | err m => simp only [hout]; exact h

/-! ### Field-wise equality of rows -/

theorem optionRow_ext {r1 r2 : OptionRow} (hid : r1.id = r2.id)
    (hkey : r1.key = r2.key) (hop : r1.opened = r2.opened)
    (hcl : r1.closed = r2.closed) (hc : r1.contracts = r2.contracts)
    (hm : r1.premium = r2.premium) : r1 = r2 := by
  cases r1
  cases r2
  unfold OptionRow.key at hkey
  simp only [OptKey.mk.injEq] at hkey
  simp_all

theorem longRow_ext {r1 r2 : LongRow} (hid : r1.id = r2.id)
    (hsym : r1.symbol = r2.symbol) (hop : r1.opened = r2.opened)
    (hcl : r1.closed = r2.closed) (hsh : r1.shares = r2.shares)
    (hbp : r1.buyPrice = r2.buyPrice) : r1 = r2 := by
  cases r1
  cases r2
  simp_all

/-! ### Value persistence: a row whose key or symbol the remaining items
never target survives the loop with its values intact -/

theorem stepDB_opt_untouched (today : YMD) (db : DB) (p : IBPosition) {r : OptionRow}
    (hwf : DB.WF db) (hr : r ∈ db.options)
    (hk : ∀ k c m, itemOutcome p = .opt k c m → k ≠ r.key) :
    r ∈ (stepDB today db p).options := by
  cases hout : itemOutcome p with
  | opt k c m =>
    rw [stepDB_opt today db hout]
    have hkne : k ≠ r.key := hk k c m hout
    cases hf : firstOpenOpt db k with
    | some x =>
      obtain ⟨hxmem, hxkey, hxcl⟩ := firstOpenOpt_some hf
      rw [sync_opt_of_found today c m hf]
      have hid : r.id ≠ x.id := by
        intro hid
        have : r = x := WF_opt_inj hwf hr hxmem hid
        rw [this, hxkey] at hkne
        exact hkne rfl
      have : setOptVals x.id c m r = r := by
        unfold setOptVals
        rw [if_neg hid]
      rw [← this]
      exact List.mem_map_of_mem _ hr
    | none =>
      rw [sync_opt_of_absent today c m hf]
      exact List.mem_append_left _ hr
  | stk sym sh bp =>
    rw [stepDB_stk today db hout, sync_long_options]
    exact hr
  | skip => rw [stepDB_skip today db hout]; exact hr
  | err m => rw [stepDB_err today db hout]; exact hr

theorem loopDB_opt_untouched (today : YMD) (ps : List IBPosition) :
    ∀ db : DB, ∀ r : OptionRow, DB.WF db → r ∈ db.options →
      (∀ q ∈ ps, ∀ k c m, itemOutcome q = .opt k c m → k ≠ r.key) →
      r ∈ (List.foldl (stepDB today) db ps).options := by
  induction ps with
  | nil => intro db r _ hr _; exact hr
  | cons p ps ih =>
    intro db r hwf hr hk
    rw [List.foldl_cons]
    exact ih (stepDB today db p) r (stepDB_WF today db p hwf).1
      (stepDB_opt_untouched today db p hwf hr
        (fun k c m hout => hk p (List.mem_cons_self p ps) k c m hout))
      (fun q hq => hk q (List.mem_cons_of_mem p hq))

theorem stepDB_long_untouched (today : YMD) (db : DB) (p : IBPosition) {r : LongRow}
    (hwf : DB.WF db) (hr : r ∈ db.longPositions)
    (hs : ∀ sym sh bp, itemOutcome p = .stk sym sh bp → sym ≠ r.symbol) :
    r ∈ (stepDB today db p).longPositions := by
  cases hout : itemOutcome p with
  | stk sym sh bp =>
    rw [stepDB_stk today db hout]
    have hsne : sym ≠ r.symbol := hs sym sh bp hout
    cases hf : pickLatestOpen db sym with
    | some x =>
      obtain ⟨hxmem, hxsym, hxcl⟩ := pickLatestOpen_some hf
      rw [sync_long_of_found today sh bp hf]
      have hid : r.id ≠ x.id := by
        intro hid
        have : r = x := WF_long_inj hwf hr hxmem hid
        rw [this, hxsym] at hsne
        exact hsne rfl
      have : setLongVals x.id sh bp r = r := by
        unfold setLongVals
        rw [if_neg hid]
      rw [← this]
      exact List.mem_map_of_mem _ hr
    | none =>
      rw [sync_long_of_absent today sh bp hf]
      exact List.mem_append_left _ hr
  | opt k c m =>
    rw [stepDB_opt today db hout, sync_opt_longPositions]
    exact hr
  | skip => rw [stepDB_skip today db hout]; exact hr
  | err m => rw [stepDB_err today db hout]; exact hr

theorem loopDB_long_untouched (today : YMD) (ps : List IBPosition) :
    ∀ db : DB, ∀ r : LongRow, DB.WF db → r ∈ db.longPositions →
      (∀ q ∈ ps, ∀ sym sh bp, itemOutcome q = .stk sym sh bp → sym ≠ r.symbol) →
      r ∈ (List.foldl (stepDB today) db ps).longPositions := by
  induction ps with
  | nil => intro db r _ hr _; exact hr
  | cons p ps ih =>
    intro db r hwf hr hs
    rw [List.foldl_cons]
    exact ih (stepDB today db p) r (stepDB_WF today db p hwf).1
      (stepDB_long_untouched today db p hwf hr
        (fun sym sh bp hout => hs p (List.mem_cons_self p ps) sym sh bp hout))
      (fun q hq => hs q (List.mem_cons_of_mem p hq))

/-- The synced option row with its written values. -/
theorem sync_opt_row_exists_vals (today : YMD) (db : DB) (k : OptKey) (c : Nat)
    (m : Rat) :
    ∃ r1 ∈ (sync_option_position today db k c m).1.options,
      r1.id = (sync_option_position today db k c m).2 ∧
      r1.closed = none ∧ r1.key = k ∧ r1.contracts = c ∧ r1.premium = m := by
  cases hf : firstOpenOpt db k with
  | some r0 =>
    obtain ⟨hmem, hkey, hclosed⟩ := firstOpenOpt_some hf
    rw [sync_opt_of_found today c m hf]
    refine ⟨setOptVals r0.id c m r0, ?_, ?_, ?_, ?_, ?_, ?_⟩
    · exact List.mem_map_of_mem _ hmem
    · simp
    · simp [hclosed]
    · simp [hkey]
    · unfold setOptVals
      rw [if_pos rfl]
    · unfold setOptVals
      rw [if_pos rfl]
  | none =>
    rw [sync_opt_of_absent today c m hf]
    refine ⟨⟨db.nextOptionId, k.symbol, k.type, k.strike, k.expiration, m, c, today, none⟩,
      ?_, rfl, rfl, rfl, rfl, rfl⟩
    exact List.mem_append_right _ (List.mem_singleton_self _)

/-- The synced share row with its written values. -/
theorem sync_long_row_exists_vals (today : YMD) (db : DB) (sym : String) (sh : Int)
    (bp : Rat) :
    ∃ r1 ∈ (sync_long_position today db sym sh bp).1.longPositions,
      r1.id = (sync_long_position today db sym sh bp).2 ∧
      r1.closed = none ∧ r1.symbol = sym ∧ r1.shares = sh ∧ r1.buyPrice = bp := by
  cases hf : pickLatestOpen db sym with
  | some r0 =>
    obtain ⟨hmem, hsym, hclosed⟩ := pickLatestOpen_some hf
    rw [sync_long_of_found today sh bp hf]
    refine ⟨setLongVals r0.id sh bp r0, ?_, ?_, ?_, ?_, ?_, ?_⟩
    · exact List.mem_map_of_mem _ hmem
    · simp
    · simp [hclosed]
    · simp [hsym]
    · unfold setLongVals
      rw [if_pos rfl]
    · unfold setLongVals
      rw [if_pos rfl]
  | none =>
    rw [sync_long_of_absent today sh bp hf]
    refine ⟨⟨db.nextLongId, sym, today, sh, bp, none⟩, ?_, rfl, rfl, rfl, rfl, rfl⟩
    exact List.mem_append_right _ (List.mem_singleton_self _)

/-! ### Stability of the most-recently-opened lookup -/

theorem pick_fold_map (f : LongRow → LongRow) (hop : ∀ r, (f r).opened = r.opened) :
    ∀ (l : List LongRow) (acc : Option LongRow),
      (l.map f).foldl pickFun (acc.map f) = (l.foldl pickFun acc).map f := by
  intro l
  induction l with
  | nil => intro acc; rfl
  | cons r l ih =>
    intro acc
    rw [List.map_cons, List.foldl_cons, List.foldl_cons]
    have hstep : pickFun (acc.map f) (f r) = (pickFun acc r).map f := by
      cases acc with
      | none => rfl
      | some b =>
        have hform : pickFun ((some b).map f) (f r) =
            (if ymdLt (f b).opened (f r).opened then some (f r) else some (f b)) := rfl
        rw [hform, hop r, hop b]
        simp only [pickFun]
        by_cases hlt : ymdLt b.opened r.opened
        · rw [if_pos hlt, if_pos hlt]
          rfl
        · rw [if_neg hlt, if_neg hlt]
          rfl
    rw [hstep, ih]

theorem pickId_map_set {dbA dbB : DB} {i : Nat} {sh : Int} {bp : Rat}
    (h : dbB.longPositions = dbA.longPositions.map (setLongVals i sh bp))
    (sym : String) : pickId dbB sym = pickId dbA sym := by
  unfold pickId pickLatestOpen
  rw [h, List.filter_map]
  have hpred : ((fun r : LongRow => decide (r.symbol = sym ∧ r.closed = none)) ∘
      setLongVals i sh bp) =
      (fun r : LongRow => decide (r.symbol = sym ∧ r.closed = none)) := by
    funext r
    simp
  rw [hpred]
  have hfold : List.foldl pickFun none
      (List.map (setLongVals i sh bp)
        (dbA.longPositions.filter (fun r => decide (r.symbol = sym ∧ r.closed = none)))) =
      Option.map (setLongVals i sh bp)
        (List.foldl pickFun none
          (dbA.longPositions.filter (fun r => decide (r.symbol = sym ∧ r.closed = none)))) := by
    have := pick_fold_map (setLongVals i sh bp) (fun r => setLongVals_opened i sh bp r)
      (dbA.longPositions.filter (fun r => decide (r.symbol = sym ∧ r.closed = none))) none
    simpa using this
  rw [hfold]
  cases List.foldl pickFun none
      (dbA.longPositions.filter (fun r => decide (r.symbol = sym ∧ r.closed = none))) with
  | none => rfl
  | some b => simp

theorem pick_none_filter_nil {db : DB} {sym : String}
    (h : pickLatestOpen db sym = none) :
    db.longPositions.filter (fun r => decide (r.symbol = sym ∧ r.closed = none)) = [] := by
  cases hfil : db.longPositions.filter
      (fun r => decide (r.symbol = sym ∧ r.closed = none)) with
  | nil => rfl
  | cons x xs =>
    exfalso
    unfold pickLatestOpen at h
    rw [hfil] at h
    simp only [List.foldl_cons, pickFun] at h
    exact pick_fold_none h

theorem pickId_append_self_of_none {dbA dbB : DB} {x : LongRow} {sym : String}
    (h : dbB.longPositions = dbA.longPositions ++ [x])
    (hnone : pickLatestOpen dbA sym = none)
    (hxs : x.symbol = sym) (hxc : x.closed = none) : pickId dbB sym = some x.id := by
  unfold pickId pickLatestOpen
  rw [h, List.filter_append, pick_none_filter_nil hnone]
  have : List.filter (fun r : LongRow => decide (r.symbol = sym ∧ r.closed = none)) [x] =
      [x] := by
    simp [hxs, hxc]
  rw [this]
  rfl

theorem pickId_append_other {dbA dbB : DB} {x : LongRow} {sym : String}
    (h : dbB.longPositions = dbA.longPositions ++ [x])
    (hxs : x.symbol ≠ sym) : pickId dbB sym = pickId dbA sym := by
  unfold pickId pickLatestOpen
  rw [h, List.filter_append]
  have : List.filter (fun r : LongRow => decide (r.symbol = sym ∧ r.closed = none)) [x] =
      [] := by
    simp [hxs]
  rw [this, List.append_nil]

theorem stepDB_pickId_stable (today : YMD) (db : DB) (p : IBPosition) (sym : String)
    (hwf : DB.WF db) (hex : ∃ r ∈ db.longPositions, r.closed = none ∧ r.symbol = sym) :
    pickId (stepDB today db p) sym = pickId db sym := by
  cases hout : itemOutcome p with
  | opt k c m =>
    unfold pickId pickLatestOpen
    rw [stepDB_opt today db hout, sync_opt_longPositions]
  | stk sym2 sh bp =>
    rw [stepDB_stk today db hout]
    cases hf : pickLatestOpen db sym2 with
    | some r0 =>
      have hmap : ((sync_long_position today db sym2 sh bp).1).longPositions =
          db.longPositions.map (setLongVals r0.id sh bp) := by
        rw [sync_long_of_found today sh bp hf]
      exact pickId_map_set hmap sym
    | none =>
      by_cases hsym2 : sym2 = sym
      · exfalso
        obtain ⟨r, hr, hc, hs⟩ := hex
        subst hsym2
        exact pickLatestOpen_none.mp hf r hr ⟨hs, hc⟩
      · have hmap : ((sync_long_position today db sym2 sh bp).1).longPositions =
            db.longPositions ++ [⟨db.nextLongId, sym2, today, sh, bp, none⟩] := by
          rw [sync_long_of_absent today sh bp hf]
        exact pickId_append_other hmap hsym2
  | skip => rw [stepDB_skip today db hout]
  | err m => rw [stepDB_err today db hout]

theorem loop_pickId_stable (today : YMD) (ps : List IBPosition) :
    ∀ (db : DB) (sym : String), DB.WF db →
      (∃ r ∈ db.longPositions, r.closed = none ∧ r.symbol = sym) →
      pickId (List.foldl (stepDB today) db ps) sym = pickId db sym := by
  induction ps with
  | nil => intro db sym _ _; rfl
  | cons p ps ih =>
    intro db sym hwf hex
    rw [List.foldl_cons]
    have hex1 : ∃ r ∈ (stepDB today db p).longPositions,
        r.closed = none ∧ r.symbol = sym := by
      obtain ⟨r, hr, hc, hs⟩ := hex
      obtain ⟨r', hr', hskel⟩ := stepDB_long_persist today db p r hr
      exact ⟨r', hr', by rw [hskel.2.2.2]; exact hc, by rw [hskel.2.1]; exact hs⟩
    rw [ih (stepDB today db p) sym (stepDB_WF today db p hwf).1 hex1]
    exact stepDB_pickId_stable today db p sym hwf hex

theorem filter_close_invariant (today : YMD) (syms : List String) (sym : String)
    (hsym : sym ∈ syms) :
    ∀ l : List LongRow,
      (l.map (closeLongRow today syms)).filter
        (fun r => decide (r.symbol = sym ∧ r.closed = none)) =
      l.filter (fun r => decide (r.symbol = sym ∧ r.closed = none)) := by
  intro l
  induction l with
  | nil => rfl
  | cons r l ih =>
    rw [List.map_cons, List.filter_cons, List.filter_cons]
    by_cases hp : r.symbol = sym ∧ r.closed = none
    · have hkeep : closeLongRow today syms r = r :=
        closeLongRow_kept (by rw [hp.1]; exact hsym)
      have hpr : decide (r.symbol = sym ∧ r.closed = none) = true := by
        simpa using hp
      rw [hkeep, if_pos hpr, ih, if_pos hpr]
    · have hpr : ¬(decide (r.symbol = sym ∧ r.closed = none) = true) := by
        simpa using hp
      have hprc : ¬(decide ((closeLongRow today syms r).symbol = sym ∧
          (closeLongRow today syms r).closed = none) = true) := by
        simp only [decide_eq_true_eq]
        intro hcc
        apply hp
        refine ⟨by rw [← closeLongRow_symbol today syms r]; exact hcc.1, ?_⟩
        unfold closeLongRow at hcc
        by_cases hcond : r.closed = none ∧ r.symbol ∉ syms
        · rw [if_pos hcond] at hcc
          simp at hcc
        · rw [if_neg hcond] at hcc
          exact hcc.2
      rw [if_neg hprc, if_neg hpr, ih]

theorem pickId_close_long {db : DB} {syms : List String} {sym : String} (today : YMD)
    (hsym : sym ∈ syms) :
    pickId (close_missing_long_positions today db syms).1 sym = pickId db sym := by
  unfold pickId pickLatestOpen
  rw [close_long_longPositions, filter_close_invariant today syms sym hsym]

theorem pickId_close_opt {db : DB} {ids : List Nat} (today : YMD) (sym : String) :
    pickId (close_missing_options today db ids).1 sym = pickId db sym := by
  unfold pickId pickLatestOpen
  rw [close_opt_longPositions]

/-! ### The values stored for an accumulated option id are the values of the
last snapshot item carrying its key -/

theorem loopVals_opt (today : YMD) (ps : List IBPosition) :
    ∀ db : DB, DB.WF db →
      ∀ i ∈ loopIds today db ps,
        ∀ r' ∈ (List.foldl (stepDB today) db ps).options, r'.id = i →
          lastOpt ps r'.key = some (r'.contracts, r'.premium) := by
  induction ps with
  | nil => intro db _ i hi; simp [loopIds] at hi
  | cons p ps ih =>
    intro db hwf i hi r' hr' hid
    have hwf1 : DB.WF (stepDB today db p) := (stepDB_WF today db p hwf).1
    rw [List.foldl_cons] at hr'
    rw [loopIds_cons] at hi
    by_cases htail : i ∈ loopIds today (stepDB today db p) ps
    · exact lastOpt_cons_of_some
        (ih (stepDB today db p) hwf1 i htail r' hr' hid) p
    · cases hout : itemOutcome p with
      | opt k c m =>
        rw [hout] at hi
        have hhead : i = (sync_option_position today db k c m).2 := by
          rcases List.mem_append.mp hi with h1 | h1
          · simpa using h1
          · exact absurd h1 htail
        obtain ⟨r1, hr1mem, hr1id, hr1cl, hr1key, hr1c, hr1m⟩ :=
          sync_opt_row_exists_vals today db k c m
        have hr1mem' : r1 ∈ (stepDB today db p).options := by
          rw [stepDB_opt today db hout]; exact hr1mem
        have hwfL : DB.WF (List.foldl (stepDB today) (stepDB today db p) ps) :=
          (loopDB_WF today ps (stepDB today db p) hwf1).1
        have hA : ∀ q ∈ ps, ∀ c' m', itemOutcome q ≠ .opt k c' m' := by
          intro q hq c' m' habs
          have hkmem : k ∈ okKeys ps := okKeys_iff_exists.mpr ⟨q, hq, c', m', habs⟩
          obtain ⟨r2, hr2mem, hr2cl, hr2key, hr2ids⟩ :=
            loopIds_complete today ps (stepDB today db p) k hkmem
          have hcanon : IdsCanon (List.foldl (stepDB today) db (p :: ps))
              (loopIds today db (p :: ps)) := by
            have := loopIds_canon today (p :: ps) db [] hwf (by intro j hj; simp at hj)
            simpa using this
          have hr2mem' : r2 ∈ (List.foldl (stepDB today) db (p :: ps)).options := by
            rw [List.foldl_cons]; exact hr2mem
          have hids2 : r2.id ∈ loopIds today db (p :: ps) := by
            rw [loopIds_cons, hout]
            exact List.mem_append_right _ hr2ids
          obtain ⟨_, hc2⟩ := hcanon r2.id hids2 r2 hr2mem' rfl
          obtain ⟨rr, hrrmem, hskel⟩ :=
            loopDB_opt_persist today ps (stepDB today db p) r1 hr1mem'
          have hrr_eq : rr = r' := by
            refine WF_opt_inj hwfL hrrmem hr' ?_
            rw [hskel.1, hr1id, ← hhead, hid]
          have hkey' : r'.key = k := by
            rw [← hrr_eq, hskel.2.1, hr1key]
          have hr'mem' : r' ∈ (List.foldl (stepDB today) db (p :: ps)).options := by
            rw [List.foldl_cons]; exact hr'
          have hidsr' : r'.id ∈ loopIds today db (p :: ps) := by
            rw [loopIds_cons, hout, hid, hhead]
            exact List.mem_append_left _ (List.mem_singleton_self _)
          obtain ⟨_, hc1⟩ := hcanon r'.id hidsr' r' hr'mem' rfl
          rw [hkey'] at hc1
          rw [hr2key] at hc2
          rw [hc1] at hc2
          have hideq : r'.id = r2.id := Option.some_injective _ hc2
          apply htail
          rw [← hid, hideq]
          exact hr2ids
        have hr1fin : r1 ∈ (List.foldl (stepDB today) (stepDB today db p) ps).options :=
          loopDB_opt_untouched today ps (stepDB today db p) r1 hwf1 hr1mem'
            (fun q hq k' c' m' hqout heq =>
              hA q hq c' m' (by rw [hqout, heq, hr1key]))
        have hr'eq : r' = r1 :=
          WF_opt_inj hwfL hr' hr1fin (by rw [hid, hhead, hr1id])
        have hnone : lastOpt ps k = none := lastOpt_eq_none (fun q hq c' m' => hA q hq c' m')
        have hfin : lastOpt (p :: ps) k = some (c, m) := lastOpt_cons_self hout hnone
        rw [hr'eq, hr1key, hr1c, hr1m]
        exact hfin
      | stk sym sh bp =>
        rw [hout] at hi
        simp only [List.nil_append] at hi
        exact absurd hi htail
      | skip =>
        rw [hout] at hi
        simp only [List.nil_append] at hi
        exact absurd hi htail
      | err msg =>
        rw [hout] at hi
        simp only [List.nil_append] at hi
        exact absurd hi htail

/-- After a pass, every open option row stores exactly the contracts and
premium of the last snapshot item carrying its identity key. -/
theorem passDB_val_opt (today : YMD) (ps : List IBPosition) (db : DB) (hwf : DB.WF db) :
    ∀ r ∈ (passDB today ps db).options, r.closed = none →
      lastOpt ps r.key = some (r.contracts, r.premium) := by
  intro r hr hc
  rw [passDB_eq, close_long_options] at hr
  obtain ⟨hrL, hid⟩ := close_opt_open_inv hr hc
  exact loopVals_opt today ps db hwf r.id hid r hrL rfl

/-- The id returned by sync_long_position is the id its own lookup would now
return for the symbol. -/
theorem sync_long_pickId (today : YMD) (db : DB) (sym : String) (sh : Int) (bp : Rat) :
    pickId (sync_long_position today db sym sh bp).1 sym =
      some (sync_long_position today db sym sh bp).2 := by
  cases hf : pickLatestOpen db sym with
  | some r0 =>
    have hmap : ((sync_long_position today db sym sh bp).1).longPositions =
        db.longPositions.map (setLongVals r0.id sh bp) := by
      rw [sync_long_of_found today sh bp hf]
    have h2 : (sync_long_position today db sym sh bp).2 = r0.id := by
      rw [sync_long_of_found today sh bp hf]
    rw [pickId_map_set hmap sym, h2]
    unfold pickId
    rw [hf]
    rfl
  | none =>
    have hmap : ((sync_long_position today db sym sh bp).1).longPositions =
        db.longPositions ++ [⟨db.nextLongId, sym, today, sh, bp, none⟩] := by
      rw [sync_long_of_absent today sh bp hf]
    have h2 : (sync_long_position today db sym sh bp).2 = db.nextLongId := by
      rw [sync_long_of_absent today sh bp hf]
    rw [h2]
    exact pickId_append_self_of_none hmap hf rfl rfl

/-- For every stock symbol of the snapshot the loop leaves an open row that
its lookup would pick and whose values are those of the last item carrying
the symbol. -/
theorem loopSyms_complete_vals (today : YMD) (ps : List IBPosition) :
    ∀ db : DB, DB.WF db → ∀ sym ∈ stkSyms ps,
      ∃ w ∈ (List.foldl (stepDB today) db ps).longPositions,
        w.closed = none ∧ w.symbol = sym ∧
        lastStk ps sym = some (w.shares, w.buyPrice) ∧
        pickId (List.foldl (stepDB today) db ps) sym = some w.id := by
  induction ps with
  | nil => intro db _ sym hs; simp [stkSyms] at hs
  | cons p ps ih =>
    intro db hwf sym hs
    have hwf1 : DB.WF (stepDB today db p) := (stepDB_WF today db p hwf).1
    rw [List.foldl_cons]
    by_cases htail : sym ∈ stkSyms ps
    · obtain ⟨w, hwmem, hwcl, hwsym, hwlast, hwpick⟩ :=
        ih (stepDB today db p) hwf1 sym htail
      exact ⟨w, hwmem, hwcl, hwsym, lastStk_cons_of_some hwlast p, hwpick⟩
    · rw [stkSyms_cons] at hs
      cases hout : itemOutcome p with
      | stk sym0 sh bp =>
        rw [hout] at hs
        have hsym0 : sym0 = sym := by
          rcases List.mem_append.mp hs with h1 | h1
          · exact (List.mem_singleton.mp h1).symm
          · exact absurd h1 htail
        subst hsym0
        obtain ⟨r1, hr1mem, hr1id, hr1cl, hr1sym, hr1sh, hr1bp⟩ :=
          sync_long_row_exists_vals today db sym0 sh bp
        have hr1mem' : r1 ∈ (stepDB today db p).longPositions := by
          rw [stepDB_stk today db hout]; exact hr1mem
        have hnotail : ∀ q ∈ ps, ∀ sh' bp', itemOutcome q ≠ .stk sym0 sh' bp' := by
          intro q hq sh' bp' habs
          exact htail (stkSyms_iff_exists.mpr ⟨q, hq, sh', bp', habs⟩)
        have hr1fin :
            r1 ∈ (List.foldl (stepDB today) (stepDB today db p) ps).longPositions :=
          loopDB_long_untouched today ps (stepDB today db p) r1 hwf1 hr1mem'
            (fun q hq sym' sh' bp' hqout heq =>
              hnotail q hq sh' bp' (by rw [hqout, heq, hr1sym]))
        have hnone : lastStk ps sym0 = none :=
          lastStk_eq_none (fun q hq sh' bp' => hnotail q hq sh' bp')
        have hlast : lastStk (p :: ps) sym0 = some (sh, bp) :=
          lastStk_cons_self hout hnone
        have hpickstep : pickId (stepDB today db p) sym0 =
            some (sync_long_position today db sym0 sh bp).2 := by
          rw [stepDB_stk today db hout]
          exact sync_long_pickId today db sym0 sh bp
        have hpick : pickId (List.foldl (stepDB today) (stepDB today db p) ps) sym0 =
            some r1.id := by
          rw [loop_pickId_stable today ps (stepDB today db p) sym0 hwf1
            ⟨r1, hr1mem', hr1cl, hr1sym⟩, hpickstep, hr1id]
        exact ⟨r1, hr1fin, hr1cl, hr1sym, by rw [hlast, hr1sh, hr1bp], hpick⟩
      | opt k c m =>
        rw [hout] at hs
        simp only [List.nil_append] at hs
        exact absurd hs htail
      | skip =>
        rw [hout] at hs
        simp only [List.nil_append] at hs
        exact absurd hs htail
      | err msg =>
        rw [hout] at hs
        simp only [List.nil_append] at hs
        exact absurd hs htail

/-- Every open share row the loop leaves behind is either an untouched row
of the starting store or the picked row for its symbol carrying the last
written values. -/
theorem loopVals_long (today : YMD) (ps : List IBPosition) :
    ∀ db : DB, DB.WF db →
      ∀ r' ∈ (List.foldl (stepDB today) db ps).longPositions, r'.closed = none →
        r' ∈ db.longPositions ∨
          (lastStk ps r'.symbol = some (r'.shares, r'.buyPrice) ∧
            pickId (List.foldl (stepDB today) db ps) r'.symbol = some r'.id) := by
  induction ps with
  | nil => intro db _ r' hr' _; exact Or.inl hr'
  | cons p ps ih =>
    intro db hwf r' hr' hcl
    have hwf1 : DB.WF (stepDB today db p) := (stepDB_WF today db p hwf).1
    rw [List.foldl_cons] at hr' ⊢
    have hwfL : DB.WF (List.foldl (stepDB today) (stepDB today db p) ps) :=
      (loopDB_WF today ps (stepDB today db p) hwf1).1
    rcases ih (stepDB today db p) hwf1 r' hr' hcl with hleft | ⟨hlast, hpick⟩
    · cases hout : itemOutcome p with
      | opt k c m =>
        rw [stepDB_opt today db hout, sync_opt_longPositions] at hleft
        exact Or.inl hleft
      | skip =>
        rw [stepDB_skip today db hout] at hleft
        exact Or.inl hleft
      | err msg =>
        rw [stepDB_err today db hout] at hleft
        exact Or.inl hleft
      | stk sym sh bp =>
        have hmem1 : r' ∈ (stepDB today db p).longPositions := hleft
        rw [stepDB_stk today db hout] at hleft
        cases hf : pickLatestOpen db sym with
        | some r0 =>
          rw [sync_long_of_found today sh bp hf] at hleft
          obtain ⟨x, hx, hxe⟩ := List.mem_map.mp hleft
          obtain ⟨hr0mem, hr0sym, hr0cl⟩ := pickLatestOpen_some hf
          by_cases hxid : x.id = r0.id
          · have hx0 : x = r0 := WF_long_inj hwf hx hr0mem hxid
            have hre : r' = { x with shares := sh, buyPrice := bp } := by
              rw [← hxe]
              unfold setLongVals
              rw [if_pos hxid]
            have hsym' : r'.symbol = sym := by rw [hre, hx0]; exact hr0sym
            have hid' : r'.id = r0.id := by rw [hre, hx0]
            have hps2 : (sync_long_position today db sym sh bp).2 = r0.id := by
              rw [sync_long_of_found today sh bp hf]
            have hpickstep : pickId (stepDB today db p) sym =
                some (sync_long_position today db sym sh bp).2 := by
              rw [stepDB_stk today db hout]
              exact sync_long_pickId today db sym sh bp
            have hstab := loop_pickId_stable today ps (stepDB today db p) sym hwf1
              ⟨r', hmem1, hcl, hsym'⟩
            by_cases htl : sym ∈ stkSyms ps
            · obtain ⟨w, hwmem, hwcl, hwsym, hwlast, hwpick⟩ :=
                loopSyms_complete_vals today ps (stepDB today db p) hwf1 sym htl
              have hwid : w.id = r'.id := by
                have h2 : pickId (List.foldl (stepDB today) (stepDB today db p) ps) sym =
                    some r'.id := by
                  rw [hstab, hpickstep, hps2, hid']
                rw [hwpick] at h2
                exact Option.some_injective _ h2
              have hweq : w = r' := WF_long_inj hwfL hwmem hr' hwid
              refine Or.inr ⟨?_, ?_⟩
              · rw [hsym']
                have hthis := lastStk_cons_of_some hwlast p
                rw [hweq] at hthis
                exact hthis
              · rw [hsym', hstab, hpickstep, hps2, hid']
            · have hnone : lastStk ps sym = none :=
                lastStk_eq_none (fun q hq sh' bp' habs =>
                  htl (stkSyms_iff_exists.mpr ⟨q, hq, sh', bp', habs⟩))
              have hlast : lastStk (p :: ps) sym = some (sh, bp) :=
                lastStk_cons_self hout hnone
              have hsh' : r'.shares = sh := by rw [hre]
              have hbp' : r'.buyPrice = bp := by rw [hre]
              refine Or.inr ⟨?_, ?_⟩
              · rw [hsym', hlast, hsh', hbp']
              · rw [hsym', hstab, hpickstep, hps2, hid']
          · have hxe' : setLongVals r0.id sh bp x = x := by
              unfold setLongVals
              rw [if_neg hxid]
            rw [hxe'] at hxe
            exact Or.inl (hxe ▸ hx)
        | none =>
          rw [sync_long_of_absent today sh bp hf] at hleft
          rcases List.mem_append.mp hleft with h1 | h1
          · exact Or.inl h1
          · have hre : r' = (⟨db.nextLongId, sym, today, sh, bp, none⟩ : LongRow) :=
              (List.mem_singleton.mp h1)
            have hsym' : r'.symbol = sym := by rw [hre]
            have hid' : r'.id = db.nextLongId := by rw [hre]
            have hps2 : (sync_long_position today db sym sh bp).2 = db.nextLongId := by
              rw [sync_long_of_absent today sh bp hf]
            have hpickstep : pickId (stepDB today db p) sym =
                some (sync_long_position today db sym sh bp).2 := by
              rw [stepDB_stk today db hout]
              exact sync_long_pickId today db sym sh bp
            have hstab := loop_pickId_stable today ps (stepDB today db p) sym hwf1
              ⟨r', hmem1, hcl, hsym'⟩
            by_cases htl : sym ∈ stkSyms ps
            · obtain ⟨w, hwmem, hwcl, hwsym, hwlast, hwpick⟩ :=
                loopSyms_complete_vals today ps (stepDB today db p) hwf1 sym htl
              have hwid : w.id = r'.id := by
                have h2 : pickId (List.foldl (stepDB today) (stepDB today db p) ps) sym =
                    some r'.id := by
                  rw [hstab, hpickstep, hps2, hid']
                rw [hwpick] at h2
                exact Option.some_injective _ h2
              have hweq : w = r' := WF_long_inj hwfL hwmem hr' hwid
              refine Or.inr ⟨?_, ?_⟩
              · rw [hsym']
                have hthis := lastStk_cons_of_some hwlast p
                rw [hweq] at hthis
                exact hthis
              · rw [hsym', hstab, hpickstep, hps2, hid']
            · have hnone : lastStk ps sym = none :=
                lastStk_eq_none (fun q hq sh' bp' habs =>
                  htl (stkSyms_iff_exists.mpr ⟨q, hq, sh', bp', habs⟩))
              have hlast : lastStk (p :: ps) sym = some (sh, bp) :=
                lastStk_cons_self hout hnone
              have hsh' : r'.shares = sh := by rw [hre]
              have hbp' : r'.buyPrice = bp := by rw [hre]
              refine Or.inr ⟨?_, ?_⟩
              · rw [hsym', hlast, hsh', hbp']
              · rw [hsym', hstab, hpickstep, hps2, hid']
    · exact Or.inr ⟨lastStk_cons_of_some hlast p, hpick⟩

/-- Idempotence at full row granularity: the second pass leaves every open
row byte-identical — same rowid, key or symbol, opened date and stored
values. -/
theorem passDB_idem_rows (today : YMD) (ps : List IBPosition) (db : DB)
    (hwf : DB.WF db) :
    (∀ r : OptionRow,
      (r ∈ (passDB today ps (passDB today ps db)).options ∧ r.closed = none) ↔
      (r ∈ (passDB today ps db).options ∧ r.closed = none)) ∧
    (∀ r : LongRow,
      (r ∈ (passDB today ps (passDB today ps db)).longPositions ∧ r.closed = none) ↔
      (r ∈ (passDB today ps db).longPositions ∧ r.closed = none)) := by
  have hwf1 : DB.WF (passDB today ps db) := passDB_WF today ps db hwf
  obtain ⟨hlen, hnext, hlenL, hnextL, hids, hkeys, hidsL, hsyms⟩ :=
    passDB_idem today ps db hwf
  have hfwd : ∀ r : OptionRow, r ∈ (passDB today ps (passDB today ps db)).options →
      r.closed = none → r ∈ (passDB today ps db).options := by
    intro r hr hc
    have hi2 : r.id ∈ openOptIds (passDB today ps (passDB today ps db)) :=
      mem_openOptIds.mpr ⟨r, hr, hc, rfl⟩
    obtain ⟨r1, hr1, hc1, hid1⟩ := mem_openOptIds.mp ((hids r.id).mp hi2)
    have hv2 := passDB_val_opt today ps (passDB today ps db) hwf1 r hr hc
    have hr' := hr
    rw [passDB_eq, close_long_options] at hr'
    obtain ⟨hrL, hidsmem⟩ := close_opt_open_inv hr' hc
    rcases loopDB_opt_backward today ps (passDB today ps db) r hrL with
      ⟨x, hx, hskel⟩ | hge
    · have hxeq : x = r1 := WF_opt_inj hwf1 hx hr1 (by rw [hid1]; exact hskel.1.symm)
      have hv1 := passDB_val_opt today ps db hwf r1 hr1 hc1
      have hkey1 : r.key = r1.key := by rw [hskel.2.1, hxeq]
      rw [← hkey1] at hv1
      rw [hv2] at hv1
      have hpair := Option.some_injective _ hv1
      have hreq : r = r1 :=
        optionRow_ext hid1.symm hkey1 (by rw [hskel.2.2.1, hxeq])
          (by rw [hc, hc1]) (congrArg Prod.fst hpair) (congrArg Prod.snd hpair)
      rw [hreq]
      exact hr1
    · exfalso
      have hb := hwf1.2.1 r1 hr1
      rw [hid1] at hb
      exact absurd (lt_of_le_of_lt hge hb) (lt_irrefl _)
  have hfwdL : ∀ r : LongRow,
      r ∈ (passDB today ps (passDB today ps db)).longPositions →
      r.closed = none → r ∈ (passDB today ps db).longPositions := by
    intro r hr hc
    have hr' := hr
    rw [passDB_eq] at hr'
    obtain ⟨hrco, hsymmem⟩ := close_long_open_inv hr' hc
    rw [close_opt_longPositions] at hrco
    rcases loopVals_long today ps (passDB today ps db) hwf1 r hrco hc with
      hleft | ⟨hlast2, hpick2⟩
    · exact hleft
    · obtain ⟨w, hwmem, hwcl, hwsym, hwlast, hwpick⟩ :=
        loopSyms_complete_vals today ps db hwf r.symbol hsymmem
      have hwd1 : w ∈ (passDB today ps db).longPositions := by
        rw [passDB_eq]
        exact close_long_open_kept (by rw [close_opt_longPositions]; exact hwmem)
          (by rw [hwsym]; exact hsymmem)
      have hpickd1 : pickId (passDB today ps db) r.symbol = some w.id := by
        rw [passDB_eq, pickId_close_long today hsymmem,
          pickId_close_opt today r.symbol, hwpick]
      have hstab : pickId (List.foldl (stepDB today) (passDB today ps db) ps) r.symbol =
          pickId (passDB today ps db) r.symbol :=
        loop_pickId_stable today ps (passDB today ps db) r.symbol hwf1
          ⟨w, hwd1, hwcl, hwsym⟩
      have hid : r.id = w.id := by
        have h2 := hpick2
        rw [hstab, hpickd1] at h2
        exact (Option.some_injective _ h2).symm
      rcases loopDB_long_backward today ps (passDB today ps db) r hrco with
        ⟨x, hx, hskel⟩ | hge
      · have hxeq : x = w := WF_long_inj hwf1 hx hwd1 (by rw [← hskel.1]; exact hid)
        have h3 := hwlast
        rw [hlast2] at h3
        have hpair := Option.some_injective _ h3
        have hreq : r = w :=
          longRow_ext hid (by rw [hskel.2.1, hxeq]) (by rw [hskel.2.2.1, hxeq])
            (by rw [hc, hwcl]) (congrArg Prod.fst hpair) (congrArg Prod.snd hpair)
        rw [hreq]
        exact hwd1
      · exfalso
        have hb := hwf1.2.2.2 w hwd1
        rw [← hid] at hb
        exact absurd (lt_of_le_of_lt hge hb) (lt_irrefl _)
  refine ⟨?_, ?_⟩
  · intro r
    constructor
    · rintro ⟨hr, hc⟩
      exact ⟨hfwd r hr hc, hc⟩
    · rintro ⟨hr, hc⟩
      have hi1 : r.id ∈ openOptIds (passDB today ps db) :=
        mem_openOptIds.mpr ⟨r, hr, hc, rfl⟩
      obtain ⟨r2, hr2, hc2, hid2⟩ := mem_openOptIds.mp ((hids r.id).mpr hi1)
      have hr2d1 := hfwd r2 hr2 hc2
      have hr2eq : r2 = r := WF_opt_inj hwf1 hr2d1 hr hid2
      exact ⟨hr2eq ▸ hr2, hc⟩
  · intro r
    constructor
    · rintro ⟨hr, hc⟩
      exact ⟨hfwdL r hr hc, hc⟩
    · rintro ⟨hr, hc⟩
      have hi1 : r.id ∈ openLongIds (passDB today ps db) :=
        mem_openLongIds.mpr ⟨r, hr, hc, rfl⟩
      obtain ⟨r2, hr2, hc2, hid2⟩ := mem_openLongIds.mp ((hidsL r.id).mpr hi1)
      have hr2d1 := hfwdL r2 hr2 hc2
      have hr2eq : r2 = r := WF_long_inj hwf1 hr2d1 hr hid2
      exact ⟨hr2eq ▸ hr2, hc⟩

/-- C3: running the pass twice with the unchanged snapshot inserts zero new
rows on the second run (row counts and fresh-id counters are unchanged, so
every item matched an existing open row and was updated with identical
values) and the open rows themselves are unchanged: each open option and
share row of the second run — compared field by field, contracts, premium,
shares and buy price included — is an open row of the first run and vice
versa, as are the open rowid, identity-key and symbol sets. -/
theorem C3_idempotence (today : YMD) (now : String) (db : DB) (ps : List IBPosition)
    (hwf : DB.WF db) :
    (sync_positions (okEnv ps) (sync_positions (okEnv ps) db today now).db today
        now).db.options.length =
      (sync_positions (okEnv ps) db today now).db.options.length ∧
    (sync_positions (okEnv ps) (sync_positions (okEnv ps) db today now).db today
        now).db.nextOptionId =
      (sync_positions (okEnv ps) db today now).db.nextOptionId ∧
    (sync_positions (okEnv ps) (sync_positions (okEnv ps) db today now).db today
        now).db.longPositions.length =
      (sync_positions (okEnv ps) db today now).db.longPositions.length ∧
    (sync_positions (okEnv ps) (sync_positions (okEnv ps) db today now).db today
        now).db.nextLongId =
      (sync_positions (okEnv ps) db today now).db.nextLongId ∧
    (∀ i, i ∈ openOptIds (sync_positions (okEnv ps)
        (sync_positions (okEnv ps) db today now).db today now).db ↔
      i ∈ openOptIds (sync_positions (okEnv ps) db today now).db) ∧
    (∀ k, k ∈ openOptKeys (sync_positions (okEnv ps)
        (sync_positions (okEnv ps) db today now).db today now).db ↔
      k ∈ openOptKeys (sync_positions (okEnv ps) db today now).db) ∧
    (∀ i, i ∈ openLongIds (sync_positions (okEnv ps)
        (sync_positions (okEnv ps) db today now).db today now).db ↔
      i ∈ openLongIds (sync_positions (okEnv ps) db today now).db) ∧
    (∀ sym, sym ∈ openShareSymbols (sync_positions (okEnv ps)
        (sync_positions (okEnv ps) db today now).db today now).db ↔
      sym ∈ openShareSymbols (sync_positions (okEnv ps) db today now).db) ∧
    (∀ r : OptionRow,
      (r ∈ (sync_positions (okEnv ps)
          (sync_positions (okEnv ps) db today now).db today now).db.options ∧
        r.closed = none) ↔
      (r ∈ (sync_positions (okEnv ps) db today now).db.options ∧
        r.closed = none)) ∧
    (∀ r : LongRow,
      (r ∈ (sync_positions (okEnv ps)
          (sync_positions (okEnv ps) db today now).db today now).db.longPositions ∧
        r.closed = none) ↔
      (r ∈ (sync_positions (okEnv ps) db today now).db.longPositions ∧
        r.closed = none)) := by
  have h1 : (sync_positions (okEnv ps) db today now).db = passDB today ps db := by
    rw [sync_positions_ok]
  rw [h1]
  have h2 : (sync_positions (okEnv ps) (passDB today ps db) today now).db =
      passDB today ps (passDB today ps db) := by
    rw [sync_positions_ok]
  rw [h2]
  obtain ⟨a1, a2, a3, a4, a5, a6, a7, a8⟩ := passDB_idem today ps db hwf
  obtain ⟨b1, b2⟩ := passDB_idem_rows today ps db hwf
  exact ⟨a1, a2, a3, a4, a5, a6, a7, a8, b1, b2⟩

/-- Witness for C3 at a concrete store and snapshot. -/
theorem C3_idempotence_witness :
    (sync_positions (okEnv [posAAPL, posMSFT])
        (sync_positions (okEnv [posAAPL, posMSFT]) dbW t0 "T").db t0
        "T").db.options.length =
      (sync_positions (okEnv [posAAPL, posMSFT]) dbW t0 "T").db.options.length ∧
    ((1 : Nat) ∈ openOptIds (sync_positions (okEnv [posAAPL, posMSFT])
        (sync_positions (okEnv [posAAPL, posMSFT]) dbW t0 "T").db t0 "T").db ↔
      (1 : Nat) ∈ openOptIds (sync_positions (okEnv [posAAPL, posMSFT]) dbW t0 "T").db) ∧
    ("MSFT" ∈ openShareSymbols (sync_positions (okEnv [posAAPL, posMSFT])
        (sync_positions (okEnv [posAAPL, posMSFT]) dbW t0 "T").db t0 "T").db ↔
      "MSFT" ∈ openShareSymbols (sync_positions (okEnv [posAAPL, posMSFT]) dbW t0 "T").db) ∧
    ((rowAAPL ∈ (sync_positions (okEnv [posAAPL, posMSFT])
        (sync_positions (okEnv [posAAPL, posMSFT]) dbW t0 "T").db t0 "T").db.options ∧
        rowAAPL.closed = none) ↔
      (rowAAPL ∈ (sync_positions (okEnv [posAAPL, posMSFT]) dbW t0 "T").db.options ∧
        rowAAPL.closed = none)) ∧
    ((rowMSFT ∈ (sync_positions (okEnv [posAAPL, posMSFT])
        (sync_positions (okEnv [posAAPL, posMSFT]) dbW t0 "T").db t0
          "T").db.longPositions ∧
        rowMSFT.closed = none) ↔
      (rowMSFT ∈ (sync_positions (okEnv [posAAPL, posMSFT]) dbW t0 "T").db.longPositions ∧
        rowMSFT.closed = none)) := by
  obtain ⟨h1, _, _, _, h5, _, _, h8, h9, h10⟩ :=
    C3_idempotence t0 "T" dbW [posAAPL, posMSFT] (by decide)
  exact ⟨h1, h5 1, h8 "MSFT", h9 rowAAPL, h10 rowMSFT⟩
